import Mathlib

/-!
# ETH194 virtual network card (`qemu/hw/eth194.c`)

A shallow embedding of the device model: the register file, the interrupt
line, the guest-memory ring of frame-buffer descriptors, the receive path
(`eth194_receive`), the register dispatch (`eth194_ioport_write`,
`eth194_ioport_read`), the mapped accessors (`eth194_read`, `eth194_write`)
and the post-load hook of the state serializer.

Conventions.
* Machine integers are natural numbers; every store into a field of width
  `w` is written with an explicit `% 2 ^ w`.
* Guest physical memory is a map from addresses to bytes.  A multi-byte field
  is assembled in the byte order of the (little-endian) host, which is how
  `cpu_physical_memory_read` into a C struct behaves there.
* `curr` and `curw` are `uint32_t` (they are serialised with
  `VMSTATE_UINT32`), so `s->curw + 2` is a 32-bit unsigned sum.
* A C operation without defined behaviour (copying past the end of `fb.d` or
  of the source of a `memcpy`) is reported as `Fault.undefinedBehaviour`; the transmit loop takes a fuel
  argument and reports `Fault.outOfFuel` when it is exhausted.
-/

namespace ETH194

/-! ## Constants of `eth194.c` -/

def MAX_ETH_FRAME_SIZE : Nat := 1514
def MIN_BUF_SIZE : Nat := 60

def E8390_CMD : Nat := 0x00
def EN0_TSR : Nat := 0x04
def EN0_TCNTLO : Nat := 0x05
def EN0_TCNTHI : Nat := 0x06
def EN0_ISR : Nat := 0x07
def EN0_RCNTLO : Nat := 0x0a
def EN0_RTL8029ID0 : Nat := 0x0a
def EN0_RCNTHI : Nat := 0x0b
def EN0_RTL8029ID1 : Nat := 0x0b
def EN0_RSR : Nat := 0x0c
def EN0_RXCR : Nat := 0x0c
def EN0_IMR : Nat := 0x0f
def EN1_PHYS : Nat := 0x11
def EN1_MULT : Nat := 0x18
def EN3_CONFIG0 : Nat := 0x33
def EN3_CONFIG2 : Nat := 0x35
def EN3_CONFIG3 : Nat := 0x36
def EN3_CURR0 : Nat := 0x32
def EN3_CURR1 : Nat := 0x34
def EN3_CURR2 : Nat := 0x37
def EN3_CURR3 : Nat := 0x38
def EN3_CURW0 : Nat := 0x3A
def EN3_CURW1 : Nat := 0x3B
def EN3_CURW2 : Nat := 0x3C
def EN3_CURW3 : Nat := 0x3D

def E8390_STOP : Nat := 0x01
def E8390_TRANS : Nat := 0x04
def E8390_RREAD : Nat := 0x08
def E8390_RWRITE : Nat := 0x10

def ENISR_RX : Nat := 0x01
def ENISR_TX : Nat := 0x02
def ENISR_RDC : Nat := 0x40
def ENISR_RESET : Nat := 0x80

def ENRSR_RXOK : Nat := 0x01
def ENRSR_PHY : Nat := 0x20

def ENTSR_PTX : Nat := 0x01

/-- The C operator `~` on a 32-bit operand. -/
def bnot32 (x : Nat) : Nat := 0xFFFFFFFF ^^^ x

/-! ## Device state -/

/-- Register file of the device.  The struct itself is declared in `eth194.h`;
the fields and their widths are those listed by `vmstate_eth194`
(`uint8_t` for `rxcr cmd tsr rsr isr imr rv wv`, `uint16_t` for `tcnt rcnt`,
`uint32_t` for `curr curw`, byte arrays `phys[6]` and `mult[8]`). -/
structure ETH194State where
  rxcr : Nat
  cmd : Nat
  tsr : Nat
  tcnt : Nat
  rcnt : Nat
  rsr : Nat
  isr : Nat
  imr : Nat
  curr : Nat
  curw : Nat
  rv : Nat
  wv : Nat
  phys : Nat → Nat
  mult : Nat → Nat

/-- The device together with what it acts on: guest physical memory, the
level last driven to the interrupt sink (`qemu_set_irq`) and the frames handed
to the host (`qemu_send_packet`), oldest first. -/
structure World where
  s : ETH194State
  mem : Nat → Nat
  irq : Bool
  sent : List (List Nat)

/-- Ways in which a call does not return a result. -/
inductive Fault where
  | undefinedBehaviour
  | outOfFuel
  deriving DecidableEq

/-! ## Frame-buffer descriptors in guest memory -/

/-- Modelled from the spec: `struct eth194_fb` is declared in `eth194.h`, which
is not part of the sources.  Section 3 gives the fields in order: `df` (1 byte),
`hf` (1 byte), `nphy` (4 bytes), `cnt` (2 or 4 bytes), `d[]` (payload bytes, up
to the maximum Ethernet frame size).  `eth194_receive` reads `nphy` at offset
2, so the struct is packed.  The width of `cnt` and the capacity of `d` are the
two numbers the sources do not fix; they are the fields of this record. -/
structure FbLayout where
  cntBytes : Nat
  dCap : Nat
  deriving DecidableEq

/-- Modelled from the spec: the layouts section 3 allows, `cnt` of 2 or 4 bytes
and room in `d` for a frame of the maximum Ethernet size. -/
def FbLayout.Valid (L : FbLayout) : Prop :=
  (L.cntBytes = 2 ∨ L.cntBytes = 4) ∧ MAX_ETH_FRAME_SIZE ≤ L.dCap

instance (L : FbLayout) : Decidable L.Valid := by
  unfold FbLayout.Valid; exact inferInstance

/-- Offset of `cnt` in the packed struct. -/
def FbLayout.cntOff (_L : FbLayout) : Nat := 6

/-- Offset of `d` in the packed struct. -/
def FbLayout.dOff (L : FbLayout) : Nat := 6 + L.cntBytes

/-- The value of `sizeof(struct eth194_fb)`. -/
def FbLayout.sizeof (L : FbLayout) : Nat := 6 + L.cntBytes + L.dCap

/-- A value of type `struct eth194_fb`. -/
structure eth194_fb where
  df : Nat
  hf : Nat
  nphy : Nat
  cnt : Nat
  d : Nat → Nat

/-- Byte `i` of the little-endian representation of `v`. -/
def leByte (v i : Nat) : Nat := v / 256 ^ i % 256

/-- Byte `i` of the object representation of `fb`. -/
def fbByte (L : FbLayout) (fb : eth194_fb) (i : Nat) : Nat :=
  if i = 0 then fb.df % 256
  else if i = 1 then fb.hf % 256
  else if i < 6 then leByte fb.nphy (i - 2)
  else if i < L.dOff then leByte fb.cnt (i - 6)
  else fb.d (i - L.dOff) % 256

/-- Modelled from the spec: the guest-memory accessor `writePhysical(addr,
bytes)` (`cpu_physical_memory_write`, not part of the sources): bytes
`buf 0 .. buf (len-1)` are stored at `addr .. addr+len-1`. -/
def cpu_physical_memory_write (mem : Nat → Nat) (addr : Nat) (buf : Nat → Nat) (len : Nat) :
    Nat → Nat :=
  fun a => if addr ≤ a ∧ a < addr + len then buf (a - addr) % 256 else mem a

/-- Modelled from the spec: the guest-memory accessor `readPhysical(addr, len)`
(`cpu_physical_memory_read`, not part of the sources): byte `i` of the result
is the byte stored at `addr + i`. -/
def cpu_physical_memory_read (mem : Nat → Nat) (addr : Nat) (i : Nat) : Nat :=
  mem (addr + i) % 256

/-- The little-endian integer held by the `n` bytes `buf k, buf (k+1), ...`. -/
def leValue (buf : Nat → Nat) (k : Nat) : Nat → Nat
  | 0 => 0
  | n + 1 => buf k % 256 + 256 * leValue buf (k + 1) n

/-- The struct obtained by reading `sizeof(fb)` bytes at `addr` into `fb`. -/
def readFb (L : FbLayout) (mem : Nat → Nat) (addr : Nat) : eth194_fb :=
  let b := cpu_physical_memory_read mem addr
  { df := b 0
    hf := b 1
    nphy := leValue b 2 4
    cnt := leValue b L.cntOff L.cntBytes
    d := fun i => b (L.dOff + i) }

/-! ## Reset, interrupt line, admission -/

def eth194_reset (s : ETH194State) : ETH194State :=
  { s with isr := ENISR_RESET, curr := 0, curw := 0 }

def eth194_update_irq (w : World) : World :=
  let isr := (w.s.isr &&& w.s.imr) &&& 0x7f
  { w with irq := decide (isr ≠ 0) }

/-- The C function returns `int`; `true` stands for a non-zero result. -/
def eth194_buffer_full (s : ETH194State) : Bool :=
  decide (s.curw = 0)

/-- The C function returns `int` (0 or 1). -/
def eth194_can_receive (s : ETH194State) : Nat :=
  if s.cmd &&& E8390_STOP ≠ 0 then 1
  else if eth194_buffer_full s then 0 else 1

/-! ## Receive path -/

/-- The frame after `if (size < MIN_BUF_SIZE) { memcpy(buf1, buf, size);
memset(buf1 + size, 0, MIN_BUF_SIZE - size); buf = buf1; ... }`. -/
def padFrame (buf : List Nat) : List Nat :=
  if buf.length < MIN_BUF_SIZE then buf ++ List.replicate (MIN_BUF_SIZE - buf.length) 0
  else buf

/-- The variable `size` after the same statement. -/
def paddedSize (size : Nat) : Nat :=
  if size < MIN_BUF_SIZE then MIN_BUF_SIZE else size

/-- Body of `eth194_receive`.  `fb` is the initial (indeterminate) content of
the local variable `fb`, `buf` the frame delivered by the host.  The result is
the returned `ssize_t` and the world after the call.  `memcpy(fb.d, buf, size)`
takes byte `i` of `d` from byte `i` of the source for `i < size`; no byte of
`d` gets a value that the source does not hold. -/
def eth194_receive (L : FbLayout) (fb : eth194_fb) (w : World) (buf : List Nat) :
    Except Fault (Int × World) :=
  if w.s.cmd &&& E8390_STOP ≠ 0 ∨ eth194_buffer_full w.s = true then
    .ok (-1, w)
  else
    -- if too small buffer, then expand it
    let buf1 := padFrame buf
    let size := paddedSize buf.length
    -- Check if there's no remaining buffer
    if w.s.curw = 0 then
      .ok ((size : Int), w)
    else
      let fb := { fb with df := 0x01 }
      let mem1 := cpu_physical_memory_write w.mem w.s.curw (fbByte L fb) 1
      let fb := { fb with hf := 0x00 }
      let fb := { fb with
        nphy := leValue (cpu_physical_memory_read mem1 ((w.s.curw + 2) % 2 ^ 32)) 0 4 }
      let fb := { fb with cnt := size % 2 ^ (8 * L.cntBytes) }
      -- memcpy(fb.d, buf, size) writes past the array when size exceeds its capacity
      if L.dCap < size then
        .error Fault.undefinedBehaviour
      -- and reads past the end of the source when that holds fewer than size bytes
      else if buf1.length < size then
        .error Fault.undefinedBehaviour
      else
        let fb := { fb with d := fun i => if i < size then buf1.getD i (fb.d i) else fb.d i }
        let mem2 := cpu_physical_memory_write mem1 w.s.curw (fbByte L fb) L.sizeof
        let fb := { fb with df := 0x03 }
        let mem3 := cpu_physical_memory_write mem2 w.s.curw (fbByte L fb) 1
        let s1 := { w.s with curw := fb.nphy }
        let s2 := { s1 with rsr := ENRSR_RXOK }
        let s3 := { s2 with rsr := (s2.rsr ||| ENRSR_PHY) % 256 }
        let s4 := { s3 with isr := (s3.isr ||| ENISR_RX) % 256 }
        let w1 := eth194_update_irq { w with s := s4, mem := mem3 }
        .ok ((size : Int), w1)

/-! ## Transmit path and register writes -/

/-- One iteration of the body of `while (s->curr != 0)` in
`eth194_ioport_write`. -/
def eth194_tx_body (L : FbLayout) (w : World) : Except Fault World :=
  let fb := readFb L w.mem w.s.curr
  let fb := { fb with df := 0x04 }
  let mem1 := cpu_physical_memory_write w.mem w.s.curr (fbByte L fb) 1
  -- qemu_send_packet(..., fb.d, fb.cnt) reads past the array when cnt exceeds its capacity
  if L.dCap < fb.cnt then
    .error Fault.undefinedBehaviour
  else
    let pkt := (List.range fb.cnt).map fb.d
    let fb := { fb with df := 0x0C }
    let mem2 := cpu_physical_memory_write mem1 w.s.curr (fbByte L fb) 1
    let s1 := { w.s with curr := fb.nphy }
    let s2 := { s1 with tsr := ENTSR_PTX }
    let s3 := { s2 with isr := (s2.isr ||| ENISR_TX) % 256 }
    let s4 := { s3 with isr := (s3.isr ||| ENISR_RDC) % 256 }
    .ok (eth194_update_irq { w with s := s4, mem := mem2, sent := w.sent ++ [pkt] })

/-- The loop `while (s->curr != 0) { ... }` of `eth194_ioport_write`, run for at
most `fuel` iterations. -/
def eth194_tx_loop (L : FbLayout) : Nat → World → Except Fault World
  | 0, w => if w.s.curr ≠ 0 then .error Fault.outOfFuel else .ok w
  | fuel + 1, w =>
    if w.s.curr ≠ 0 then
      match eth194_tx_body L w with
      | .error e => .error e
      | .ok w1 => eth194_tx_loop L fuel w1
    else .ok w

/-- The `switch (offset)` of `eth194_ioport_write`. -/
def eth194_ioport_write_switch (w : World) (offset val : Nat) : World :=
  if offset = EN0_IMR then
    eth194_update_irq { w with s := { w.s with imr := val % 256 } }
  else if offset = EN0_TCNTLO then
    { w with s := { w.s with tcnt := ((w.s.tcnt &&& 0xff00) ||| val) % 2 ^ 16 } }
  else if offset = EN0_TCNTHI then
    { w with s := { w.s with tcnt := ((w.s.tcnt &&& 0x00ff) ||| (val <<< 8) % 2 ^ 32) % 2 ^ 16 } }
  else if offset = EN0_RCNTLO then
    { w with s := { w.s with rcnt := ((w.s.rcnt &&& 0xff00) ||| val) % 2 ^ 16 } }
  else if offset = EN0_RCNTHI then
    { w with s := { w.s with rcnt := ((w.s.rcnt &&& 0x00ff) ||| (val <<< 8) % 2 ^ 32) % 2 ^ 16 } }
  else if offset = EN0_RXCR then
    { w with s := { w.s with rxcr := val % 256 } }
  else if offset = EN0_ISR then
    eth194_update_irq { w with s := { w.s with isr := (w.s.isr &&& bnot32 (val &&& 0x7f)) % 256 } }
  else if EN1_PHYS ≤ offset ∧ offset ≤ EN1_PHYS + 5 then
    { w with s := { w.s with phys := Function.update w.s.phys (offset - EN1_PHYS) (val % 256) } }
  else if EN1_MULT ≤ offset ∧ offset ≤ EN1_MULT + 7 then
    { w with s := { w.s with mult := Function.update w.s.mult (offset - EN1_MULT) (val % 256) } }
  else if offset = EN3_CURR0 then
    { w with s := { w.s with
        rv := 0x07, curr := ((w.s.curr &&& 0xffffff00) ||| (val <<< 0) % 2 ^ 32) % 2 ^ 32 } }
  else if offset = EN3_CURR1 then
    { w with s := { w.s with
        rv := 0x03, curr := ((w.s.curr &&& 0xffff00ff) ||| (val <<< 8) % 2 ^ 32) % 2 ^ 32 } }
  else if offset = EN3_CURR2 then
    { w with s := { w.s with
        rv := 0x01, curr := ((w.s.curr &&& 0xff00ffff) ||| (val <<< 16) % 2 ^ 32) % 2 ^ 32 } }
  else if offset = EN3_CURR3 then
    { w with s := { w.s with
        rv := 0x00, curr := ((w.s.curr &&& 0x00ffffff) ||| (val <<< 24) % 2 ^ 32) % 2 ^ 32 } }
  else if offset = EN3_CURW0 then
    { w with s := { w.s with
        wv := 0x07, curw := ((w.s.curw &&& 0xffffff00) ||| (val <<< 0) % 2 ^ 32) % 2 ^ 32 } }
  else if offset = EN3_CURW1 then
    { w with s := { w.s with
        wv := 0x03, curw := ((w.s.curw &&& 0xffff00ff) ||| (val <<< 8) % 2 ^ 32) % 2 ^ 32 } }
  else if offset = EN3_CURW2 then
    { w with s := { w.s with
        wv := 0x01, curw := ((w.s.curw &&& 0xff00ffff) ||| (val <<< 16) % 2 ^ 32) % 2 ^ 32 } }
  else if offset = EN3_CURW3 then
    { w with s := { w.s with
        wv := 0x00, curw := ((w.s.curw &&& 0x00ffffff) ||| (val <<< 24) % 2 ^ 32) % 2 ^ 32 } }
  else w

/-- The function `eth194_ioport_write(opaque, addr, val)`; `addr` and `val` are
`uint32_t`.  `fuel` bounds the transmit loop. -/
def eth194_ioport_write (L : FbLayout) (fuel : Nat) (w : World) (addr val : Nat) :
    Except Fault World :=
  let addr := addr &&& 0xf
  if addr = E8390_CMD then
    -- control register
    let w := { w with s := { w.s with cmd := val % 256 } }
    if val &&& E8390_STOP = 0 then
      let w := { w with s := { w.s with isr := (w.s.isr &&& bnot32 ENISR_RESET) % 256 } }
      -- test specific case: zero length transfer
      let w :=
        if val &&& (E8390_RREAD ||| E8390_RWRITE) ≠ 0 ∧ w.s.rcnt = 0 then
          eth194_update_irq { w with s := { w.s with isr := (w.s.isr ||| ENISR_RDC) % 256 } }
        else w
      if val &&& E8390_TRANS ≠ 0 then
        match eth194_tx_loop L fuel w with
        | .error e => .error e
        | .ok w =>
          let w := { w with s := { w.s with isr := (w.s.isr ||| ENISR_TX) % 256 } }
          let w := { w with s := { w.s with cmd := (w.s.cmd &&& bnot32 E8390_TRANS) % 256 } }
          .ok (eth194_update_irq w)
      else .ok w
    else .ok w
  else
    let page := w.s.cmd >>> 6
    let offset := addr ||| (page <<< 4)
    .ok (eth194_ioport_write_switch w offset val)

/-! ## Register reads -/

/-- The function `eth194_ioport_read(opaque, addr)`; the result is the returned
`uint32_t`. -/
def eth194_ioport_read (s : ETH194State) (addr : Nat) : Nat :=
  let addr := addr &&& 0xf
  if addr = E8390_CMD then s.cmd
  else
    let page := s.cmd >>> 6
    let offset := addr ||| (page <<< 4)
    if offset = EN0_TSR then s.tsr
    else if offset = EN0_ISR then s.isr
    else if EN1_PHYS ≤ offset ∧ offset ≤ EN1_PHYS + 5 then s.phys (offset - EN1_PHYS)
    else if EN1_MULT ≤ offset ∧ offset ≤ EN1_MULT + 7 then s.mult (offset - EN1_MULT)
    else if offset = EN0_RSR then s.rsr
    else if offset = EN0_RTL8029ID0 then 0x50
    else if offset = EN0_RTL8029ID1 then 0x43
    else if offset = EN3_CONFIG0 then 0
    else if offset = EN3_CONFIG2 then 0x40
    else if offset = EN3_CONFIG3 then 0x40
    else if offset = EN3_CURR0 then s.curr &&& 0xffffff00
    else if offset = EN3_CURR1 then s.curr &&& 0xffff00ff
    else if offset = EN3_CURR2 then s.curr &&& 0xff00ffff
    else if offset = EN3_CURR3 then s.curr &&& 0x00ffffff
    else if offset = EN3_CURW0 then s.curw &&& 0xffffff00
    else if offset = EN3_CURW1 then s.curw &&& 0xffff00ff
    else if offset = EN3_CURW2 then s.curw &&& 0xff00ffff
    else if offset = EN3_CURW3 then s.curw &&& 0x00ffffff
    else 0x00

/-- The mapped read `eth194_read(opaque, addr, size)`; `addr` is a `hwaddr`. -/
def eth194_read (w : World) (addr : Nat) : Nat × World :=
  if addr = 0x1f then
    (0, { w with s := eth194_reset w.s })
  else
    (eth194_ioport_read w.s (addr % 2 ^ 32), w)

/-- The mapped write `eth194_write(opaque, addr, data, size)`; `addr` is a
`hwaddr` and `data` a `uint64_t`, both converted to `uint32_t` by the call. -/
def eth194_write (L : FbLayout) (fuel : Nat) (w : World) (addr data : Nat) :
    Except Fault World :=
  eth194_ioport_write L fuel w (addr % 2 ^ 32) (data % 2 ^ 32)

/-! ## State serializer -/

/-- The function `eth194_post_load(opaque, version_id)`: the returned `int` and
the state afterwards. -/
def eth194_post_load (s : ETH194State) (version_id : Int) : Int × ETH194State :=
  if version_id < 2 then (0, { s with rxcr := 0x0c }) else (0, s)

/-- The version numbers of a `VMStateDescription`. -/
structure VMStateDescription where
  version_id : Int
  minimum_version_id : Int
  minimum_version_id_old : Int

def vmstate_eth194 : VMStateDescription :=
  { version_id := 0, minimum_version_id := 0, minimum_version_id_old := 0 }

/-- The version in which `vmstate_eth194` introduces `rxcr`
(`VMSTATE_UINT8_V(rxcr, ETH194State, 2)`). -/
def vmstate_eth194_rxcr_version : Int := 2

/-! ## Notions used by the statements -/

/-- The interrupt line shows the masked interrupt status. -/
def IrqConsistent (w : World) : Prop :=
  w.irq = decide ((w.s.isr &&& w.s.imr) &&& 0x7f ≠ 0)

instance (w : World) : Decidable (IrqConsistent w) := by
  unfold IrqConsistent; exact inferInstance

/-- The bytes `d[0..cnt)` of the descriptor at `a`. -/
def fbPayload (L : FbLayout) (mem : Nat → Nat) (a : Nat) : List Nat :=
  (List.range (readFb L mem a).cnt).map (readFb L mem a).d

/-- The list `l` is the chain of descriptors `a1 → a2 → ... → an → 0` that
starts at `a` in memory `mem`: every address is non-zero, every `nphy` is the
next address, the last `nphy` is 0, and every `cnt` fits the payload array. -/
def IsChain (L : FbLayout) (mem : Nat → Nat) : Nat → List Nat → Prop
  | a, [] => a = 0
  | a, b :: l =>
    a = b ∧ b ≠ 0 ∧ (readFb L mem b).cnt ≤ L.dCap ∧ IsChain L mem (readFb L mem b).nphy l

instance IsChain.instDecidable (L : FbLayout) (mem : Nat → Nat) :
    ∀ a l, Decidable (IsChain L mem a l)
  | a, [] => inferInstanceAs (Decidable (a = 0))
  | a, b :: l =>
    have := IsChain.instDecidable L mem (readFb L mem b).nphy l
    inferInstanceAs (Decidable (a = b ∧ b ≠ 0 ∧ (readFb L mem b).cnt ≤ L.dCap ∧
      IsChain L mem (readFb L mem b).nphy l))

/-- No two descriptors of the list share a byte of guest memory. -/
def NonOverlapping (L : FbLayout) (l : List Nat) : Prop :=
  l.Pairwise (fun a b => a + L.sizeof ≤ b ∨ b + L.sizeof ≤ a)

instance (L : FbLayout) (l : List Nat) : Decidable (NonOverlapping L l) := by
  unfold NonOverlapping; exact inferInstance

/-- The layout with a 16-bit `cnt` and a payload array of 1514 bytes. -/
def fb16 : FbLayout := { cntBytes := 2, dCap := 1514 }

/-- A register file with every field zero. -/
def zeroState : ETH194State :=
  { rxcr := 0, cmd := 0, tsr := 0, tcnt := 0, rcnt := 0, rsr := 0, isr := 0, imr := 0,
    curr := 0, curw := 0, rv := 0, wv := 0, phys := fun _ => 0, mult := fun _ => 0 }

/-- A world with zeroed registers, zeroed memory, the line low, nothing sent. -/
def zeroWorld : World :=
  { s := zeroState, mem := fun _ => 0, irq := false, sent := [] }

/-- A struct with every byte zero. -/
def zeroFb : eth194_fb :=
  { df := 0, hf := 0, nphy := 0, cnt := 0, d := fun _ => 0 }

/-! ## Concrete inputs -/

/-- Status and mask both have the RX bit, and the line is asserted. -/
def irqRaisedWorld : World :=
  { s := { zeroState with isr := 0x01, imr := 0x01 }, mem := fun _ => 0, irq := true, sent := [] }

/-- Page 0 is selected and only the reset-status bit of `isr` is set. -/
def resetPendingWorld : World :=
  { s := { zeroState with isr := 0x80 }, mem := fun _ => 0, irq := false, sent := [] }

/-- Page 0 is selected and `isr` holds `0x43`. -/
def isrPendingWorld : World :=
  { s := { zeroState with isr := 0x43 }, mem := fun _ => 0, irq := false, sent := [] }

/-- A running device whose write ring starts at `0x1000`. -/
def ringWorld : World :=
  { s := { zeroState with curw := 0x1000 }, mem := fun _ => 0, irq := false, sent := [] }

/-- A stopped device whose write ring starts at `0x1000`. -/
def stoppedRingWorld : World :=
  { s := { zeroState with cmd := 0x01, curw := 0x1000 }, mem := fun _ => 0, irq := false,
    sent := [] }

/-- The write ring starts at the last byte below 4 GiB; the `nphy` field of
that descriptor (at `0x100000001`) holds 7, the bytes at addresses 1 to 4 are 0. -/
def wrapWorld : World :=
  { s := { zeroState with curw := 0xFFFFFFFF }
    mem := fun a => if a = 0x100000001 then 7 else 0
    irq := false
    sent := [] }

/-- A transmit ring with one descriptor at `0x1000` (`nphy = 0`, `cnt = 0`). -/
def stoppedTxWorld : World :=
  { s := { zeroState with curr := 0x1000 }, mem := fun _ => 0, irq := false, sent := [] }

/-- A transmit ring `0x205 → 0x200 → 0` whose two descriptors overlap: the `df`
byte of the first lies in the `nphy` field of the second.  The descriptor at
`0x0C000000` is linked to itself. -/
def overlapWorld : World :=
  { s := { zeroState with curr := 0x205 }
    mem := fun a => if a = 0x208 then 0x02 else if a = 0x0C000005 then 0x0C else 0
    irq := false
    sent := [] }

/-- A transmit ring `0x1000 → 0x2000 → 0`: the first descriptor carries 64
bytes `0xAA`, the second 128 bytes `0xBB`. -/
def chainWorld : World :=
  { s := { zeroState with curr := 0x1000 }
    mem := fun a =>
      if a = 0x1003 then 0x20
      else if a = 0x1006 then 64
      else if 0x1008 ≤ a ∧ a < 0x1048 then 0xAA
      else if a = 0x2006 then 128
      else if 0x2008 ≤ a ∧ a < 0x2088 then 0xBB
      else 0
    irq := false
    sent := [] }

/-! ## Notions and inputs for the register file and the ring walks -/

/-- The case labels of the `switch` in `eth194_ioport_write`. -/
def writeSwitchHandles (offset : Nat) : Prop :=
  offset = EN0_IMR ∨ offset = EN0_TCNTLO ∨ offset = EN0_TCNTHI ∨ offset = EN0_RCNTLO ∨
  offset = EN0_RCNTHI ∨ offset = EN0_RXCR ∨ offset = EN0_ISR ∨
  (EN1_PHYS ≤ offset ∧ offset ≤ EN1_PHYS + 5) ∨ (EN1_MULT ≤ offset ∧ offset ≤ EN1_MULT + 7) ∨
  offset = EN3_CURR0 ∨ offset = EN3_CURR1 ∨ offset = EN3_CURR2 ∨ offset = EN3_CURR3 ∨
  offset = EN3_CURW0 ∨ offset = EN3_CURW1 ∨ offset = EN3_CURW2 ∨ offset = EN3_CURW3

instance (offset : Nat) : Decidable (writeSwitchHandles offset) := by
  unfold writeSwitchHandles; exact inferInstance

/-- The case labels, other than `default`, of the `switch` in
`eth194_ioport_read`. -/
def readSwitchHandles (offset : Nat) : Prop :=
  offset = EN0_TSR ∨ offset = EN0_ISR ∨
  (EN1_PHYS ≤ offset ∧ offset ≤ EN1_PHYS + 5) ∨ (EN1_MULT ≤ offset ∧ offset ≤ EN1_MULT + 7) ∨
  offset = EN0_RSR ∨ offset = EN0_RTL8029ID0 ∨ offset = EN0_RTL8029ID1 ∨
  offset = EN3_CONFIG0 ∨ offset = EN3_CONFIG2 ∨ offset = EN3_CONFIG3 ∨
  offset = EN3_CURR0 ∨ offset = EN3_CURR1 ∨ offset = EN3_CURR2 ∨ offset = EN3_CURR3 ∨
  offset = EN3_CURW0 ∨ offset = EN3_CURW1 ∨ offset = EN3_CURW2 ∨ offset = EN3_CURW3

instance (offset : Nat) : Decidable (readSwitchHandles offset) := by
  unfold readSwitchHandles; exact inferInstance

/-- The register writes `(addr, val)` of the list, made one after the other
through `eth194_ioport_write`. -/
def eth194_write_all (L : FbLayout) (fuel : Nat) : World → List (Nat × Nat) → Except Fault World
  | w, [] => .ok w
  | w, p :: l =>
    match eth194_ioport_write L fuel w p.1 p.2 with
    | .error e => .error e
    | .ok w1 => eth194_write_all L fuel w1 l

/-- The address reached from `a` by following `k` links `nphy` in `mem`. -/
def nphyWalk (L : FbLayout) (mem : Nat → Nat) (a : Nat) : Nat → Nat
  | 0 => a
  | k + 1 => (readFb L mem (nphyWalk L mem a k)).nphy

/-- Offset, within its page, of the register `EN3_CURR0 .. EN3_CURR3` that
holds byte `k` of `curr` (0x2, 0x4, 0x7, 0x8). -/
def currReg : Nat → Nat
  | 0 => EN3_CURR0 - 0x30
  | 1 => EN3_CURR1 - 0x30
  | 2 => EN3_CURR2 - 0x30
  | _ => EN3_CURR3 - 0x30

/-- Offset, within its page, of the register `EN3_CURW0 .. EN3_CURW3` that
holds byte `k` of `curw` (0xA .. 0xD). -/
def curwReg : Nat → Nat
  | 0 => EN3_CURW0 - 0x30
  | 1 => EN3_CURW1 - 0x30
  | 2 => EN3_CURW2 - 0x30
  | _ => EN3_CURW3 - 0x30

/-- The C expression `(x & ~(0xff << 8k)) | (b << 8k)` on 32-bit operands. -/
def setByte32 (x k b : Nat) : Nat :=
  ((x &&& bnot32 ((2 ^ 8 - 1) <<< (8 * k))) ||| (b <<< (8 * k)) % 2 ^ 32) % 2 ^ 32

/-- Page 1 is selected (`cmd = 0x40`). -/
def page1World : World :=
  { s := { zeroState with cmd := 0x40 }, mem := fun _ => 0, irq := false, sent := [] }

/-- Page 2 is selected (`cmd = 0x80`); the registers hold recognisable values. -/
def page2World : World :=
  { s := { zeroState with
      cmd := 0x80
      tsr := 0x11
      isr := 0x22
      rsr := 0x33
      curr := 0x44
      curw := 0x55 }
    mem := fun _ => 0
    irq := false
    sent := [] }

/-- The ring-pointer page is selected (`cmd = 0xC0`); both pointers hold
`0xAABBCCDD`. -/
def page3World : World :=
  { s := { zeroState with cmd := 0xC0, curr := 0xAABBCCDD, curw := 0xAABBCCDD }
    mem := fun _ => 0
    irq := false
    sent := [] }

/-- A running device with `isr = 0x82`, `rcnt = 0` and an empty transmit ring. -/
def resetRunningWorld : World :=
  { s := { zeroState with isr := 0x82 }, mem := fun _ => 0, irq := false, sent := [] }

/-- The write ring starts two bytes below 4 GiB; the `nphy` field of that
descriptor (at `0x100000000`) holds 9, the bytes at addresses 0 to 3 are 0. -/
def wrapWorld2 : World :=
  { s := { zeroState with curw := 0xFFFFFFFE }
    mem := fun a => if a = 0x100000000 then 9 else 0
    irq := false
    sent := [] }

/-- A transmit ring whose only descriptor, at `0x3000`, is linked to itself. -/
def selfLinkWorld : World :=
  { s := { zeroState with curr := 0x3000 }
    mem := fun a => if a = 0x3003 then 0x30 else 0
    irq := false
    sent := [] }

/-- The reset status is pending, every interrupt source is unmasked, the remote
byte count is 0 and the transmit ring holds one descriptor at `0x1000`
(`nphy = 0`, `cnt = 4`). -/
def haltedWorld : World :=
  { s := { zeroState with
      isr := 0x80
      imr := 0x7f
      curr := 0x1000
      curw := 0x2000 }
    mem := fun a => if a = 0x1006 then 4 else 0
    irq := false
    sent := [] }

/-- A running device whose transmit ring is the single descriptor at `0x1000`,
with `nphy = 0` and `cnt = 2000` (bytes `0xD0 0x07` at `0x1006`). -/
def oversizedWorld : World :=
  { s := { zeroState with curr := 0x1000 }
    mem := fun a => if a = 0x1006 then 0xD0 else if a = 0x1007 then 0x07 else 0
    irq := false
    sent := [] }

/-- A transmit ring `0x205 → 0x200 → 0x205 → ...` whose two descriptors
overlap: the `nphy` field of the descriptor at `0x200` (bytes `0x202..0x205`)
holds `0x205`, that of the descriptor at `0x205` (bytes `0x207..0x20A`) holds
`0x200`, and the `df` byte of the second is the top byte of the first field. -/
def cycleOverlapWorld : World :=
  { s := { zeroState with curr := 0x205 }
    mem := fun a => if a = 0x202 then 0x05 else if a = 0x203 then 0x02
      else if a = 0x208 then 0x02 else 0
    irq := false
    sent := [] }

/-! ## Bits, bytes and guest memory -/

theorem testBit_bnot32 (x i : Nat) :
    (bnot32 x).testBit i = (decide (i < 32) ^^ x.testBit i) := by
  unfold bnot32
  rw [Nat.testBit_xor, show (0xFFFFFFFF : Nat) = 2 ^ 32 - 1 from rfl, Nat.testBit_two_pow_sub_one]

theorem and_four_bnot32 (x : Nat) : (x &&& bnot32 0x04) % 256 &&& 0x04 = 0 := by
  apply Nat.eq_of_testBit_eq
  intro i
  rw [show (0x04 : Nat) = 2 ^ 2 from rfl]
  simp only [Nat.testBit_and, Nat.testBit_mod_two_pow, testBit_bnot32, Nat.testBit_two_pow,
    Nat.zero_testBit, show (256 : Nat) = 2 ^ 8 from rfl]
  by_cases h : 2 = i
  · subst h; simp
  · simp [h]

/-- Clearing the reset-status bit does not change the masked interrupt status. -/
theorem masked_isr_without_reset (isr imr : Nat) :
    ((isr &&& bnot32 0x80) % 256 &&& imr) &&& 0x7f = (isr &&& imr) &&& 0x7f := by
  apply Nat.eq_of_testBit_eq
  intro i
  rw [show (0x80 : Nat) = 2 ^ 7 from rfl, show (0x7f : Nat) = 2 ^ 7 - 1 from rfl,
    show (256 : Nat) = 2 ^ 8 from rfl]
  simp only [Nat.testBit_and, Nat.testBit_mod_two_pow, testBit_bnot32, Nat.testBit_two_pow,
    Nat.testBit_two_pow_sub_one]
  by_cases h : i < 7
  · have h1 : i < 8 := by omega
    have h2 : i < 32 := by omega
    have h3 : ¬ (7 = i) := by omega
    simp [h, h1, h2, h3]
  · simp [h]

theorem pred_ite {α : Type} (P : α → Prop) (c : Prop) [Decidable c] (a b : α)
    (ha : P a) (hb : P b) : P (if c then a else b) := by
  split <;> assumption

/-- A one-byte write changes the byte at `a` and nothing else. -/
theorem cpu_physical_memory_write_one (mem : Nat → Nat) (a : Nat) (buf : Nat → Nat) :
    cpu_physical_memory_write mem a buf 1 = Function.update mem a (buf 0 % 256) := by
  funext x
  unfold cpu_physical_memory_write
  by_cases h : x = a
  · subst h; simp
  · rw [Function.update_noteq h, if_neg]
    omega

theorem update_update_same (mem : Nat → Nat) (a x y : Nat) :
    Function.update (Function.update mem a x) a y = Function.update mem a y := by
  funext z
  by_cases h : z = a
  · subst h; simp
  · simp [Function.update_noteq h]

/-- The four bytes read at the 32-bit sum `A + 2` never include the byte at `A`. -/
theorem wrapped_nphy_window (A j : Nat) (hj : j < 4) : (A + 2) % 2 ^ 32 + j ≠ A := by
  omega

theorem leValue_congr (b b' : Nat → Nat) (n : Nat) :
    ∀ k, (∀ i, k ≤ i → i < k + n → b i % 256 = b' i % 256) → leValue b k n = leValue b' k n := by
  induction n with
  | zero => intro k _; rfl
  | succ n ih =>
    intro k h
    simp only [leValue]
    rw [h k (Nat.le_refl k) (by omega), ih (k + 1) (fun i h1 h2 => h i (by omega) (by omega))]

/-- Reading back the little-endian bytes of `v` gives `v`. -/
theorem leValue_leByte (b : Nat → Nat) (n : Nat) :
    ∀ k v, v < 256 ^ n → (∀ i, i < n → b (k + i) % 256 = leByte v i) → leValue b k n = v := by
  induction n with
  | zero => intro k v hv _; simp at hv; simp [leValue, hv]
  | succ n ih =>
    intro k v hv h
    have h0 := h 0 (by omega)
    simp only [leByte, Nat.add_zero, pow_zero, Nat.div_one] at h0
    have hrest : leValue b (k + 1) n = v / 256 := by
      apply ih
      · rw [pow_succ] at hv
        exact Nat.div_lt_of_lt_mul (by rw [Nat.mul_comm]; exact hv)
      · intro i hi
        have := h (i + 1) (by omega)
        rw [show k + (i + 1) = k + 1 + i by omega] at this
        rw [this]
        simp only [leByte, pow_succ, Nat.div_div_eq_div_mul]
        rw [Nat.mul_comm]
    simp only [leValue, h0, hrest]
    omega

theorem leValue_shift (mem : Nat → Nat) (A j n : Nat) :
    ∀ k, leValue (cpu_physical_memory_read mem (A + j)) k n
      = leValue (cpu_physical_memory_read mem A) (j + k) n := by
  induction n with
  | zero => intro k; rfl
  | succ n ih =>
    intro k
    simp only [leValue, ih (k + 1)]
    simp [cpu_physical_memory_read, Nat.add_assoc]

/-- The padded frame holds as many bytes as the padded size says. -/
theorem padFrame_length (buf : List Nat) : (padFrame buf).length = paddedSize buf.length := by
  unfold padFrame paddedSize MIN_BUF_SIZE
  split
  · rw [List.length_append, List.length_replicate]; omega
  · rfl

theorem paddedSize_eq_max (n : Nat) : paddedSize n = max n 60 := by
  unfold paddedSize MIN_BUF_SIZE
  split <;> omega

theorem valid_cnt_range (L : FbLayout) (hL : L.Valid) (c : Nat) (hc : c ≤ 1514) :
    c % 2 ^ (8 * L.cntBytes) = c ∧ c < 256 ^ L.cntBytes := by
  rcases hL.1 with h | h <;> rw [h] <;> norm_num <;> omega

/-! ## What the guest reads back from a committed descriptor -/

theorem committed_df_hf (L : FbLayout) (mem : Nat → Nat) (A : Nat) (fbv : eth194_fb)
    (hdf : mem A = 0x03)
    (hmem : ∀ a, A < a → a < A + L.sizeof → mem a = fbByte L fbv (a - A) % 256) :
    (readFb L mem A).df = 0x03 ∧ (readFb L mem A).hf = fbv.hf % 256 := by
  unfold readFb cpu_physical_memory_read
  simp only [Nat.add_zero, hdf]
  refine ⟨by norm_num, ?_⟩
  rw [hmem _ (by omega) (by unfold FbLayout.sizeof; omega)]
  simp [fbByte]

theorem committed_nphy (L : FbLayout) (mem : Nat → Nat) (A : Nat) (fbv : eth194_fb)
    (hmem : ∀ a, A < a → a < A + L.sizeof → mem a = fbByte L fbv (a - A) % 256)
    (hn : fbv.nphy < 2 ^ 32) :
    (readFb L mem A).nphy = fbv.nphy := by
  unfold readFb
  simp only
  apply leValue_leByte _ _ _ _ (by norm_num; omega)
  intro i hi
  unfold cpu_physical_memory_read
  rw [hmem _ (by omega) (by unfold FbLayout.sizeof; omega)]
  unfold fbByte
  rw [if_neg (by omega), if_neg (by omega), if_pos (by omega)]
  have : A + (2 + i) - A - 2 = i := by omega
  rw [this]
  simp [leByte]

theorem committed_cnt (L : FbLayout) (mem : Nat → Nat) (A : Nat) (fbv : eth194_fb)
    (hmem : ∀ a, A < a → a < A + L.sizeof → mem a = fbByte L fbv (a - A) % 256)
    (hc : fbv.cnt < 256 ^ L.cntBytes) :
    (readFb L mem A).cnt = fbv.cnt := by
  unfold readFb
  simp only
  apply leValue_leByte _ _ _ _ hc
  intro i hi
  unfold cpu_physical_memory_read FbLayout.cntOff
  rw [hmem _ (by omega) (by unfold FbLayout.sizeof; omega)]
  unfold fbByte FbLayout.dOff
  rw [if_neg (by omega), if_neg (by omega), if_neg (by omega), if_pos (by omega)]
  have : A + (6 + i) - A - 6 = i := by omega
  rw [this]
  simp [leByte]

theorem committed_d (L : FbLayout) (mem : Nat → Nat) (A : Nat) (fbv : eth194_fb)
    (hmem : ∀ a, A < a → a < A + L.sizeof → mem a = fbByte L fbv (a - A) % 256)
    (i : Nat) (hi : i < L.dCap) :
    (readFb L mem A).d i = fbv.d i % 256 := by
  unfold readFb
  simp only
  unfold cpu_physical_memory_read
  rw [hmem _ (by unfold FbLayout.dOff; omega) (by unfold FbLayout.sizeof FbLayout.dOff; omega)]
  unfold fbByte
  have hd : L.dOff = 6 + L.cntBytes := rfl
  rw [if_neg (by omega), if_neg (by omega), if_neg (by omega), if_neg (by omega)]
  have : A + (L.dOff + i) - A - L.dOff = i := by omega
  rw [this]
  simp

/-! ## The receive path -/

/-- A refused frame: the call returns -1 and the world is the one before. -/
theorem eth194_receive_refused_eq (L : FbLayout) (fb : eth194_fb) (w : World)
    (buf : List Nat) (h : w.s.curw = 0 ∨ w.s.cmd &&& 0x01 ≠ 0) :
    eth194_receive L fb w buf = .ok (-1, w) := by
  unfold eth194_receive eth194_buffer_full E8390_STOP
  rw [if_pos]
  rcases h with h | h
  · right; simpa using h
  · left; exact h

/-- An accepted frame: the returned size, the registers, the bytes of guest
memory inside and outside the descriptor at `curw`, and the interrupt line. -/
theorem eth194_receive_accept (L : FbLayout) (fb : eth194_fb) (w : World) (buf : List Nat)
    (hrun : w.s.cmd &&& 0x01 = 0) (hcurw : w.s.curw ≠ 0)
    (hcap : paddedSize buf.length ≤ L.dCap) :
    ∃ w', eth194_receive L fb w buf = .ok ((paddedSize buf.length : Nat), w') ∧
      w'.s = { w.s with
        curw := leValue (cpu_physical_memory_read w.mem ((w.s.curw + 2) % 2 ^ 32)) 0 4
        rsr := 0x21
        isr := (w.s.isr ||| 0x01) % 256 } ∧
      w'.mem w.s.curw = 0x03 ∧
      (∀ a, w.s.curw < a → a < w.s.curw + L.sizeof →
        w'.mem a = fbByte L
          { df := 0x01, hf := 0x00,
            nphy := leValue (cpu_physical_memory_read w.mem ((w.s.curw + 2) % 2 ^ 32)) 0 4,
            cnt := paddedSize buf.length % 2 ^ (8 * L.cntBytes),
            d := fun i =>
              if i < paddedSize buf.length then (padFrame buf).getD i (fb.d i) else fb.d i }
          (a - w.s.curw) % 256) ∧
      (∀ a, a < w.s.curw ∨ w.s.curw + L.sizeof ≤ a → w'.mem a = w.mem a) ∧
      w'.sent = w.sent ∧ IrqConsistent w' := by
  have hnphy : leValue (cpu_physical_memory_read
        (cpu_physical_memory_write w.mem w.s.curw (fbByte L { fb with df := 0x01 }) 1)
        ((w.s.curw + 2) % 2 ^ 32)) 0 4
      = leValue (cpu_physical_memory_read w.mem ((w.s.curw + 2) % 2 ^ 32)) 0 4 := by
    apply leValue_congr
    intro i _ hi
    unfold cpu_physical_memory_read
    rw [cpu_physical_memory_write_one, Function.update_noteq]
    exact wrapped_nphy_window _ _ (by omega)
  unfold eth194_receive
  rw [if_neg (by simp [eth194_buffer_full, E8390_STOP, hrun, hcurw])]
  simp only [hcurw, if_false, hnphy, if_neg (Nat.not_lt.mpr hcap),
    if_neg (Nat.not_lt.mpr (le_of_eq (padFrame_length buf).symm))]
  refine ⟨_, rfl, ?_, ?_, ?_, ?_, rfl, ?_⟩
  · simp [eth194_update_irq, ENRSR_RXOK, ENRSR_PHY, ENISR_RX]
  · simp [eth194_update_irq, cpu_physical_memory_write, fbByte]
  · intro a h1 h2
    simp only [eth194_update_irq, cpu_physical_memory_write]
    rw [if_neg (by omega), if_pos (by omega)]
  · intro a h
    have hs : 6 ≤ L.sizeof := by unfold FbLayout.sizeof; omega
    simp only [eth194_update_irq, cpu_physical_memory_write]
    rw [if_neg (by omega), if_neg (by omega), if_neg (by omega)]
  · simp [IrqConsistent, eth194_update_irq]

/-- C3: for every register state and every frame, `eth194_receive` returns the
refusal value -1 whenever `curw == 0` or the stop bit (0x01) of `cmd` is set. -/
theorem eth194_receive_refuses (L : FbLayout) (fb : eth194_fb) (w : World) (buf : List Nat)
    (h : w.s.curw = 0 ∨ w.s.cmd &&& 0x01 ≠ 0) :
    ∃ w', eth194_receive L fb w buf = .ok (-1, w') :=
  ⟨w, eth194_receive_refused_eq L fb w buf h⟩

/-- C3 at an empty write ring and at a stopped device, each with a 40-byte
frame. -/
theorem eth194_receive_refuses_witness :
    ((zeroWorld.s.curw = 0 ∨ zeroWorld.s.cmd &&& 0x01 ≠ 0) ∧
      ∃ w', eth194_receive fb16 zeroFb zeroWorld (List.replicate 40 0xAB) = .ok (-1, w')) ∧
    ((stoppedRingWorld.s.curw = 0 ∨ stoppedRingWorld.s.cmd &&& 0x01 ≠ 0) ∧
      ∃ w', eth194_receive fb16 zeroFb stoppedRingWorld (List.replicate 40 0xAB)
        = .ok (-1, w')) :=
  ⟨⟨Or.inl rfl, eth194_receive_refuses fb16 zeroFb zeroWorld _ (Or.inl rfl)⟩,
   ⟨Or.inr (by decide),
    eth194_receive_refuses fb16 zeroFb stoppedRingWorld _ (Or.inr (by decide))⟩⟩

/-- C4: whenever `eth194_receive` refuses a frame (`curw == 0` or the device
stopped) nothing changes: the register file, every byte of guest memory, the
interrupt line and the frames sent are the same after the call as before it. -/
theorem eth194_receive_refusal_changes_nothing (L : FbLayout) (fb : eth194_fb) (w : World)
    (buf : List Nat) (h : w.s.curw = 0 ∨ w.s.cmd &&& 0x01 ≠ 0) :
    eth194_receive L fb w buf = .ok (-1, w) :=
  eth194_receive_refused_eq L fb w buf h

/-- C4 at an empty write ring (`curw == 0`) and a 40-byte frame. -/
theorem eth194_receive_refusal_changes_nothing_witness :
    (zeroWorld.s.curw = 0 ∨ zeroWorld.s.cmd &&& 0x01 ≠ 0) ∧
    eth194_receive fb16 zeroFb zeroWorld (List.replicate 40 0xAB) = .ok (-1, zeroWorld) :=
  ⟨Or.inl rfl, eth194_receive_refusal_changes_nothing fb16 zeroFb zeroWorld _ (Or.inl rfl)⟩

/-- Bytes of the padded short frame: the frame itself, then zeros up to 60. -/
theorem padFrame_short (f : List Nat) (hlen : f.length < 60) (x : Nat) :
    (∀ i (hi : i < f.length), (padFrame f).getD i x = f.get ⟨i, hi⟩) ∧
    (∀ i, f.length ≤ i → i < 60 → (padFrame f).getD i x = 0) := by
  unfold padFrame MIN_BUF_SIZE
  rw [if_pos hlen]
  constructor
  · intro i hi
    rw [List.getD_eq_getElem?_getD, List.getElem?_append_left hi, List.getElem?_eq_getElem hi]
    rfl
  · intro i h1 h2
    rw [List.getD_eq_getElem?_getD, List.getElem?_append_right h1,
      List.getElem?_eq_getElem (by rw [List.length_replicate]; omega)]
    simp

/-- C5: for every accepted frame `f` (device not stopped, `curw != 0`) of length
`n < 60`, the call returns 60 and afterwards the descriptor at the old `curw`
has `cnt == 60`, payload bytes `d[0..n)` equal to `f` and payload bytes
`d[n..60)` all zero.  The frame is a list of bytes; the layout is any one that
section 3 of the specification allows. -/
theorem eth194_receive_pads_short_frame (L : FbLayout) (hL : L.Valid) (fb : eth194_fb)
    (w : World) (f : List Nat) (hbytes : ∀ b ∈ f, b < 256)
    (hrun : w.s.cmd &&& 0x01 = 0) (hcurw : w.s.curw ≠ 0) (hlen : f.length < 60) :
    ∃ w', eth194_receive L fb w f = .ok (60, w') ∧
      (readFb L w'.mem w.s.curw).cnt = 60 ∧
      (∀ i (hi : i < f.length), (readFb L w'.mem w.s.curw).d i = f.get ⟨i, hi⟩) ∧
      (∀ i, f.length ≤ i → i < 60 → (readFb L w'.mem w.s.curw).d i = 0) := by
  have hps : paddedSize f.length = 60 := by rw [paddedSize_eq_max]; omega
  have hcap : paddedSize f.length ≤ L.dCap := by
    have := hL.2; unfold MAX_ETH_FRAME_SIZE at this; omega
  obtain ⟨w', hok, -, -, hmem, -, -, -⟩ := eth194_receive_accept L fb w f hrun hcurw hcap
  rw [hps] at hok hmem
  have hrange := valid_cnt_range L hL 60 (by omega)
  rw [hrange.1] at hmem
  have hcapd : 60 ≤ L.dCap := by omega
  refine ⟨w', by simpa using hok, ?_, ?_, ?_⟩
  · rw [committed_cnt L _ _ _ hmem hrange.2]
  · intro i hi
    rw [committed_d L _ _ _ hmem i (by omega)]
    simp only [if_pos (show i < 60 by omega), (padFrame_short f hlen (fb.d i)).1 i hi]
    exact Nat.mod_eq_of_lt (hbytes _ (List.get_mem f i hi))
  · intro i h1 h2
    rw [committed_d L _ _ _ hmem i (by omega)]
    simp only [if_pos h2, (padFrame_short f hlen (fb.d i)).2 i h1 h2]

/-- C5 at a running device with `curw = 0x1000` and a frame of 40 bytes `0xAB`. -/
theorem eth194_receive_pads_short_frame_witness :
    fb16.Valid ∧ (∀ b ∈ List.replicate 40 0xAB, b < 256) ∧ ringWorld.s.cmd &&& 0x01 = 0 ∧
    ringWorld.s.curw ≠ 0 ∧ (List.replicate 40 0xAB).length < 60 ∧
    ∃ w', eth194_receive fb16 zeroFb ringWorld (List.replicate 40 0xAB) = .ok (60, w') ∧
      (readFb fb16 w'.mem ringWorld.s.curw).cnt = 60 ∧
      (∀ i (hi : i < (List.replicate 40 0xAB).length),
        (readFb fb16 w'.mem ringWorld.s.curw).d i = (List.replicate 40 0xAB).get ⟨i, hi⟩) ∧
      (∀ i, (List.replicate 40 0xAB).length ≤ i → i < 60 →
        (readFb fb16 w'.mem ringWorld.s.curw).d i = 0) :=
  ⟨by decide, by decide, by decide, by decide, by decide,
   eth194_receive_pads_short_frame fb16 (by decide) zeroFb ringWorld (List.replicate 40 0xAB)
     (by decide) (by decide) (by decide) (by decide)⟩

/-- The descriptor committed by an accepted frame of at most 1514 bytes when
the 32-bit sum `curw + 2` does not wrap: `df == 0x03`, `hf == 0`,
`cnt == max(len, 60)`, and `curw` becomes the `nphy` the descriptor held. -/
theorem eth194_receive_descriptor (L : FbLayout) (hL : L.Valid) (fb : eth194_fb)
    (w : World) (f : List Nat)
    (hrun : w.s.cmd &&& 0x01 = 0) (hcurw : w.s.curw ≠ 0) (hlen : f.length ≤ 1514)
    (hA : w.s.curw + 2 < 2 ^ 32) :
    ∃ w', eth194_receive L fb w f = .ok ((max f.length 60 : Nat), w') ∧
      (readFb L w'.mem w.s.curw).df = 0x03 ∧
      (readFb L w'.mem w.s.curw).hf = 0 ∧
      (readFb L w'.mem w.s.curw).cnt = max f.length 60 ∧
      w'.s.curw = (readFb L w.mem w.s.curw).nphy := by
  have hps : paddedSize f.length = max f.length 60 := paddedSize_eq_max _
  have hcap : paddedSize f.length ≤ L.dCap := by
    have := hL.2; unfold MAX_ETH_FRAME_SIZE at this; omega
  obtain ⟨w', hok, hs, hdf, hmem, -, -, -⟩ := eth194_receive_accept L fb w f hrun hcurw hcap
  rw [hps] at hok hmem
  have hrange := valid_cnt_range L hL (max f.length 60) (by omega)
  rw [hrange.1] at hmem
  have h1 := committed_df_hf L _ _ _ hdf hmem
  refine ⟨w', hok, h1.1, h1.2, ?_, ?_⟩
  · rw [committed_cnt L _ _ _ hmem hrange.2]
  · rw [hs, Nat.mod_eq_of_lt hA, leValue_shift]
    rfl

/-- C6, at the failing input: with `curw = 0xFFFFFFFF` the descriptor at `curw`
holds `nphy = 7` (at guest address `0x100000001`), but an accepted 30-byte frame
leaves `curw == 0`, the value of the four bytes at guest address 1 (the 32-bit
sum `curw + 2`), and overwrites the descriptor's `nphy` with that 0. -/
theorem eth194_receive_nphy_wraps :
    (readFb fb16 wrapWorld.mem 0xFFFFFFFF).nphy = 7 ∧
    ∃ w', eth194_receive fb16 zeroFb wrapWorld (List.replicate 30 0) = .ok (60, w') ∧
      w'.s.curw = 0 ∧ (readFb fb16 w'.mem 0xFFFFFFFF).nphy = 0 := by
  constructor
  · simp [readFb, leValue, cpu_physical_memory_read, wrapWorld]
  · have hcap : paddedSize (List.replicate 30 0).length ≤ fb16.dCap := by
      simp [paddedSize, MIN_BUF_SIZE, fb16]
    obtain ⟨w', hok, hs, -, hmem, -, -, -⟩ :=
      eth194_receive_accept fb16 zeroFb wrapWorld (List.replicate 30 0)
        (by simp [wrapWorld, zeroState]) (by simp [wrapWorld, zeroState]) hcap
    have hn : leValue (cpu_physical_memory_read wrapWorld.mem ((wrapWorld.s.curw + 2) % 2 ^ 32)) 0 4
        = 0 := by
      simp [leValue, cpu_physical_memory_read, wrapWorld, zeroState]
    rw [hn] at hs hmem
    have hc : wrapWorld.s.curw = 0xFFFFFFFF := rfl
    rw [hc] at hmem
    refine ⟨w', ?_, ?_, ?_⟩
    · simpa [paddedSize, MIN_BUF_SIZE] using hok
    · rw [hs]
    · rw [committed_nphy fb16 _ _ _ hmem (by norm_num)]

/-! ## The interrupt line -/

theorem IrqConsistent_update_irq (w : World) : IrqConsistent (eth194_update_irq w) := by
  simp [IrqConsistent, eth194_update_irq]

theorem IrqConsistent_tx_body (L : FbLayout) (w w1 : World)
    (h : eth194_tx_body L w = .ok w1) : IrqConsistent w1 := by
  unfold eth194_tx_body at h
  simp only at h
  split at h
  · cases h
  · cases h
    exact IrqConsistent_update_irq _

theorem IrqConsistent_tx_loop (L : FbLayout) :
    ∀ (fuel : Nat) (w w' : World), IrqConsistent w → eth194_tx_loop L fuel w = .ok w' →
      IrqConsistent w' := by
  intro fuel
  induction fuel with
  | zero =>
    intro w w' hw h
    simp only [eth194_tx_loop] at h
    split at h
    · cases h
    · cases h; exact hw
  | succ n ih =>
    intro w w' hw h
    simp only [eth194_tx_loop] at h
    split at h
    · cases hb : eth194_tx_body L w with
      | error e => rw [hb] at h; cases h
      | ok w1 =>
        rw [hb] at h
        exact ih w1 w' (IrqConsistent_tx_body L w w1 hb) h
    · cases h; exact hw

/-- Every register write that returns keeps the interrupt line equal to the
masked status. -/
theorem IrqConsistent_ioport_write (L : FbLayout) (fuel : Nat) (w w' : World) (addr val : Nat)
    (hw : IrqConsistent w) (h : eth194_ioport_write L fuel w addr val = .ok w') :
    IrqConsistent w' := by
  unfold eth194_ioport_write at h
  simp only at h
  split at h
  · split at h
    · split at h
      · split at h
        · cases h
        · cases h; exact IrqConsistent_update_irq _
      · cases h
        split
        · exact IrqConsistent_update_irq _
        · unfold IrqConsistent at hw ⊢
          rw [hw]
          simp only [ENISR_RESET, masked_isr_without_reset]
    · cases h
      exact hw
  · cases h
    unfold eth194_ioport_write_switch
    repeat' first
      | exact IrqConsistent_update_irq _
      | exact hw
      | refine pred_ite IrqConsistent _ _ _ ?_ ?_

/-- A frame delivery, accepted or refused, keeps the interrupt line equal to
the masked status. -/
theorem IrqConsistent_receive (L : FbLayout) (fb : eth194_fb) (w w' : World) (buf : List Nat)
    (r : Int) (hw : IrqConsistent w) (h : eth194_receive L fb w buf = .ok (r, w')) :
    IrqConsistent w' := by
  unfold eth194_receive at h
  simp only at h
  split at h
  · cases h; exact hw
  · split at h
    · cases h; exact hw
    · split at h
      · cases h
      · split at h
        · cases h
        · cases h; exact IrqConsistent_update_irq _

/-- A mapped read at an address other than 0x1f keeps the interrupt line equal
to the masked status. -/
theorem IrqConsistent_read (w : World) (addr : Nat) (haddr : addr ≠ 0x1f)
    (hw : IrqConsistent w) : IrqConsistent (eth194_read w addr).2 := by
  unfold eth194_read
  rw [if_neg haddr]
  exact hw

/-- C1, at the failing input: with `isr = imr = 0x01` and the line asserted
(so the line equals `(isr & imr & 0x7F) != 0`), the mapped read at 0x1f returns 0
and leaves `isr = 0x80`, `imr = 0x01` and the line still asserted, although
`(isr & imr & 0x7F) != 0` is now false. -/
theorem eth194_read_reset_leaves_irq_stale :
    IrqConsistent irqRaisedWorld ∧
    (eth194_read irqRaisedWorld 0x1f).1 = 0 ∧
    (eth194_read irqRaisedWorld 0x1f).2.s.isr = 0x80 ∧
    (eth194_read irqRaisedWorld 0x1f).2.s.imr = 0x01 ∧
    (eth194_read irqRaisedWorld 0x1f).2.irq = true ∧
    ¬ IrqConsistent (eth194_read irqRaisedWorld 0x1f).2 := by
  refine ⟨by decide, rfl, rfl, rfl, rfl, by decide⟩

/-! ## Writing the interrupt status register -/

/-- C2 as stated fails: with page 0 selected and `isr = 0x80`, writing
`v = 0x80` to offset 0x07 leaves bit 7, which is set in `v`, set in `isr`. -/
theorem isr_write_keeps_reset_bit :
    resetPendingWorld.s.cmd >>> 6 = 0 ∧ Nat.testBit 0x80 7 = true ∧
    ∃ w', eth194_ioport_write fb16 0 resetPendingWorld 0x07 0x80 = .ok w' ∧
      w'.s.isr.testBit 7 = true := by
  refine ⟨by decide, by decide, _, rfl, by decide⟩

/-- C2, amended: for every state with page 0 selected and every written value
`v`, a write of `v` to the ISR register (offset 0x07) clears exactly the bits
set in `v & 0x7F`: bit `i` of the new `isr` is the old bit `i`, except that it
is 0 when `i < 7` and bit `i` of `v` is set.  So every bit below bit 7 set in
`v` is 0 afterwards, every other bit (bit 7 included) keeps its old value, and
no bit goes from 0 to 1. -/
theorem isr_write_clears_low_bits (L : FbLayout) (fuel : Nat) (w : World) (addr v : Nat)
    (haddr : addr &&& 0xf = 0x07) (hpage : w.s.cmd >>> 6 = 0) (hisr : w.s.isr < 256) :
    ∃ w', eth194_ioport_write L fuel w addr v = .ok w' ∧
      ∀ i, w'.s.isr.testBit i = (w.s.isr.testBit i && !(decide (i < 7) && v.testBit i)) := by
  refine ⟨eth194_ioport_write_switch w 0x07 v, ?_, ?_⟩
  · unfold eth194_ioport_write
    simp [haddr, hpage, E8390_CMD]
  · intro i
    simp only [eth194_ioport_write_switch, EN0_IMR, EN0_TCNTLO, EN0_TCNTHI, EN0_RCNTLO,
      EN0_RCNTHI, EN0_RXCR, EN0_ISR, eth194_update_irq]
    norm_num
    rw [show (127 : Nat) = 2 ^ 7 - 1 from rfl, show (256 : Nat) = 2 ^ 8 from rfl]
    simp only [Nat.testBit_and, Nat.testBit_mod_two_pow, testBit_bnot32,
      Nat.testBit_two_pow_sub_one]
    by_cases h8 : i < 8
    · have h32 : i < 32 := by omega
      by_cases h7 : i < 7 <;> cases w.s.isr.testBit i <;> cases v.testBit i <;> simp [h8, h32, h7]
    · have : w.s.isr.testBit i = false :=
        Nat.testBit_lt_two_pow (lt_of_lt_of_le hisr (by
          rw [show (256 : Nat) = 2 ^ 8 from rfl]
          exact Nat.pow_le_pow_right (by norm_num) (by omega)))
      simp [h8, this]

/-- C2, amended, at `isr = 0x43` and `v = 0xC1`. -/
theorem isr_write_clears_low_bits_witness :
    0x07 &&& 0xf = 0x07 ∧ isrPendingWorld.s.cmd >>> 6 = 0 ∧ isrPendingWorld.s.isr < 256 ∧
    ∃ w', eth194_ioport_write fb16 0 isrPendingWorld 0x07 0xC1 = .ok w' ∧
      ∀ i, w'.s.isr.testBit i
        = (isrPendingWorld.s.isr.testBit i && !(decide (i < 7) && Nat.testBit 0xC1 i)) :=
  ⟨by decide, by decide, by decide,
   isr_write_clears_low_bits fb16 0 isrPendingWorld 0x07 0xC1 (by decide) (by decide)
     (by decide)⟩

/-! ## The transmit path -/

/-- One iteration of the transmit loop on a descriptor whose `cnt` fits the
payload array. -/
theorem eth194_tx_body_ok (L : FbLayout) (w : World)
    (hc : (readFb L w.mem w.s.curr).cnt ≤ L.dCap) :
    eth194_tx_body L w = .ok
      (eth194_update_irq
        { s := { w.s with
            curr := (readFb L w.mem w.s.curr).nphy
            tsr := 0x01
            isr := ((w.s.isr ||| 0x02) % 256 ||| 0x40) % 256 }
          mem := Function.update w.mem w.s.curr 0x0C
          irq := w.irq
          sent := w.sent ++ [fbPayload L w.mem w.s.curr] }) := by
  unfold eth194_tx_body
  simp only [if_neg (Nat.not_lt.mpr hc), cpu_physical_memory_write_one, update_update_same]
  simp [fbByte, fbPayload, ENTSR_PTX, ENISR_TX, ENISR_RDC]

theorem readFb_nphy_congr (L : FbLayout) (mem mem' : Nat → Nat) (c : Nat)
    (h : ∀ x, c < x → x < c + L.sizeof → mem x = mem' x) :
    (readFb L mem c).nphy = (readFb L mem' c).nphy := by
  unfold readFb
  simp only
  apply leValue_congr
  intro i h1 h2
  unfold cpu_physical_memory_read
  rw [h _ (by omega) (by unfold FbLayout.sizeof; omega)]

theorem readFb_cnt_congr (L : FbLayout) (mem mem' : Nat → Nat) (c : Nat)
    (h : ∀ x, c < x → x < c + L.sizeof → mem x = mem' x) :
    (readFb L mem c).cnt = (readFb L mem' c).cnt := by
  unfold readFb
  simp only
  apply leValue_congr
  intro i h1 h2
  unfold cpu_physical_memory_read
  unfold FbLayout.cntOff at h1 h2
  rw [h _ (by omega) (by unfold FbLayout.sizeof; omega)]

theorem fbPayload_congr (L : FbLayout) (mem mem' : Nat → Nat) (c : Nat)
    (h : ∀ x, c < x → x < c + L.sizeof → mem x = mem' x)
    (hc : (readFb L mem c).cnt ≤ L.dCap) :
    fbPayload L mem c = fbPayload L mem' c := by
  unfold fbPayload
  rw [← readFb_cnt_congr L mem mem' c h]
  apply List.map_congr_left
  intro i hi
  rw [List.mem_range] at hi
  unfold readFb cpu_physical_memory_read
  simp only
  rw [h _ (by unfold FbLayout.dOff; omega) (by unfold FbLayout.sizeof FbLayout.dOff; omega)]

theorem IsChain_congr (L : FbLayout) (mem mem' : Nat → Nat) (l : List Nat) :
    ∀ a, (∀ c ∈ l, ∀ x, c < x → x < c + L.sizeof → mem x = mem' x) →
      IsChain L mem a l → IsChain L mem' a l := by
  induction l with
  | nil => intro a _ h; exact h
  | cons b l ih =>
    intro a hagree h
    obtain ⟨h1, h2, h3, h4⟩ := h
    have hb := hagree b (List.mem_cons_self _ _)
    refine ⟨h1, h2, ?_, ?_⟩
    · rw [← readFb_cnt_congr L mem mem' b hb]; exact h3
    · rw [← readFb_nphy_congr L mem mem' b hb]
      exact ih _ (fun c hc => hagree c (List.mem_cons_of_mem _ hc)) h4

theorem IsChain_cnt (L : FbLayout) (mem : Nat → Nat) (l : List Nat) :
    ∀ a, IsChain L mem a l → ∀ c ∈ l, (readFb L mem c).cnt ≤ L.dCap := by
  induction l with
  | nil => intro a _ c hc; simp at hc
  | cons b l ih =>
    intro a h c hc
    obtain ⟨-, -, h3, h4⟩ := h
    rcases List.mem_cons.mp hc with rfl | hc
    · exact h3
    · exact ih _ h4 c hc

/-- The transmit loop on a chain of non-overlapping descriptors. -/
theorem eth194_tx_loop_chain (L : FbLayout) (l : List Nat) :
    ∀ (w : World) (fuel : Nat), IsChain L w.mem w.s.curr l → NonOverlapping L l →
      l.length ≤ fuel →
      ∃ w', eth194_tx_loop L fuel w = .ok w' ∧ w'.s.curr = 0 ∧ w'.s.cmd = w.s.cmd ∧
        w'.sent = w.sent ++ l.map (fbPayload L w.mem) ∧
        (∀ a ∈ l, w'.mem a = 0x0C) ∧ (∀ x, x ∉ l → w'.mem x = w.mem x) := by
  induction l with
  | nil =>
    intro w fuel hch _ _
    have h0 : w.s.curr = 0 := hch
    refine ⟨w, ?_, h0, rfl, by simp, by simp, fun _ _ => rfl⟩
    cases fuel <;> simp [eth194_tx_loop, h0]
  | cons b l ih =>
    intro w fuel hch hno hfuel
    obtain ⟨h1, h2, h3, h4⟩ := hch
    obtain ⟨n, rfl⟩ : ∃ n, fuel = n + 1 := ⟨fuel - 1, by simp at hfuel; omega⟩
    have hs : 6 ≤ L.sizeof := by unfold FbLayout.sizeof; omega
    rw [List.length_cons] at hfuel
    have hno' := List.pairwise_cons.mp hno
    have hbl : b ∉ l := fun hmem => by
      have := hno'.1 b hmem
      omega
    have hout : ∀ c ∈ l, ∀ x, c < x → x < c + L.sizeof →
        w.mem x = Function.update w.mem b 0x0C x := by
      intro c hc x hx1 hx2
      have := hno'.1 c hc
      rw [Function.update_noteq (by omega)]
    have hbody := eth194_tx_body_ok L w (by rw [h1]; exact h3)
    rw [h1] at hbody
    have hch' := IsChain_congr L _ _ l _ hout h4
    obtain ⟨w', hok, hcurr, hcmd, hsent, hdf, hframe⟩ :=
      ih (eth194_update_irq
        { s := { w.s with
            curr := (readFb L w.mem b).nphy
            tsr := 0x01
            isr := ((w.s.isr ||| 0x02) % 256 ||| 0x40) % 256 }
          mem := Function.update w.mem b 0x0C
          irq := w.irq
          sent := w.sent ++ [fbPayload L w.mem b] }) n hch' hno'.2 (by omega)
    refine ⟨w', ?_, hcurr, ?_, ?_, ?_, ?_⟩
    · simp only [eth194_tx_loop]
      rw [if_pos (by rw [h1]; exact h2), hbody]
      exact hok
    · rw [hcmd]; rfl
    · rw [hsent]
      simp only [eth194_update_irq, List.map_cons, List.append_assoc, List.singleton_append]
      congr 2
      apply List.map_congr_left
      intro c hc
      have hcc : (readFb L w.mem c).cnt ≤ L.dCap := IsChain_cnt L _ l _ h4 c hc
      exact (fbPayload_congr L _ _ c (hout c hc) hcc).symm
    · intro a ha
      rcases List.mem_cons.mp ha with rfl | ha
      · rw [hframe a hbl]
        simp [eth194_update_irq]
      · exact hdf a ha
    · intro x hx
      rw [List.mem_cons, not_or] at hx
      rw [hframe x hx.2]
      simp [eth194_update_irq, Function.update_noteq hx.1]

/-- A descriptor linked to itself is never left by the transmit loop. -/
theorem eth194_tx_loop_self (L : FbLayout) (c : Nat) (hc : c ≠ 0) :
    ∀ (fuel : Nat) (w : World), w.s.curr = c → (readFb L w.mem c).nphy = c →
      (readFb L w.mem c).cnt ≤ L.dCap → eth194_tx_loop L fuel w = .error Fault.outOfFuel := by
  intro fuel
  induction fuel with
  | zero => intro w h _ _; simp [eth194_tx_loop, h, hc]
  | succ n ih =>
    intro w h hn hcnt
    have hbody := eth194_tx_body_ok L w (by rw [h]; exact hcnt)
    rw [h] at hbody
    have hagree : ∀ x, c < x → x < c + L.sizeof → w.mem x = Function.update w.mem c 0x0C x := by
      intro x hx _
      rw [Function.update_noteq (by omega)]
    simp only [eth194_tx_loop]
    rw [if_pos (by rw [h]; exact hc), hbody]
    apply ih
    · simp [eth194_update_irq, hn]
    · simp only [eth194_update_irq]
      rw [← readFb_nphy_congr L _ _ c hagree]; exact hn
    · simp only [eth194_update_irq]
      rw [← readFb_cnt_congr L _ _ c hagree]; exact hcnt

/-- A write to the command register with the transmit bit set and the stop bit
clear runs the transmit loop from a world with the same memory, `curr` and
frames sent, then raises TX and clears the transmit bit. -/
theorem cmd_write_trans (L : FbLayout) (fuel : Nat) (w : World) (addr val : Nat)
    (haddr : addr &&& 0xf = 0) (htrans : val &&& 0x04 ≠ 0) (hstop : val &&& 0x01 = 0) :
    ∃ w0, (eth194_ioport_write L fuel w addr val =
        match eth194_tx_loop L fuel w0 with
        | .error e => .error e
        | .ok w1 =>
          .ok (eth194_update_irq
            { w1 with s := { w1.s with
                isr := (w1.s.isr ||| 0x02) % 256
                cmd := (w1.s.cmd &&& bnot32 0x04) % 256 } })) ∧
      w0.mem = w.mem ∧ w0.s.curr = w.s.curr ∧ w0.sent = w.sent ∧ w0.s.cmd = val % 256 := by
  refine ⟨if val &&& (E8390_RREAD ||| E8390_RWRITE) ≠ 0 ∧ w.s.rcnt = 0 then
      eth194_update_irq { w with s := { w.s with
        cmd := val % 256
        isr := ((w.s.isr &&& bnot32 ENISR_RESET) % 256 ||| ENISR_RDC) % 256 } }
    else { w with s := { w.s with
        cmd := val % 256
        isr := (w.s.isr &&& bnot32 ENISR_RESET) % 256 } }, ?_, ?_, ?_, ?_, ?_⟩
  · unfold eth194_ioport_write
    simp only [haddr, E8390_CMD, E8390_STOP, E8390_TRANS, hstop, htrans, if_true, ne_eq,
      not_false_eq_true, ENISR_TX]
  · split <;> rfl
  · split <;> rfl
  · split <;> rfl
  · split <;> rfl

theorem overlap_never_returns (fuel : Nat) (w0 : World) (hm : w0.mem = overlapWorld.mem)
    (hc : w0.s.curr = 0x205) : eth194_tx_loop fb16 fuel w0 = .error Fault.outOfFuel := by
  have hb1 := eth194_tx_body_ok fb16 w0
    (by rw [hc, hm]; simp [readFb, leValue, cpu_physical_memory_read, overlapWorld, fb16,
      FbLayout.cntOff])
  have hn1 : (readFb fb16 w0.mem w0.s.curr).nphy = 0x200 := by
    rw [hc, hm]; simp [readFb, leValue, cpu_physical_memory_read, overlapWorld]
  rw [hn1, hc, hm] at hb1
  cases fuel with
  | zero => simp [eth194_tx_loop, hc]
  | succ n =>
    simp only [eth194_tx_loop]
    rw [if_pos (by rw [hc]; decide), hb1]
    have hb2 := eth194_tx_body_ok fb16 (eth194_update_irq
        { s := { w0.s with
            curr := 0x200
            tsr := 0x01
            isr := ((w0.s.isr ||| 0x02) % 256 ||| 0x40) % 256 }
          mem := Function.update overlapWorld.mem 0x205 0x0C
          irq := w0.irq
          sent := w0.sent ++ [fbPayload fb16 overlapWorld.mem 0x205] })
      (by simp [eth194_update_irq, readFb, leValue, cpu_physical_memory_read, overlapWorld, fb16,
        FbLayout.cntOff, Function.update])
    cases n with
    | zero => simp [eth194_tx_loop, eth194_update_irq]
    | succ m =>
      simp only [eth194_tx_loop]
      rw [if_pos (by simp [eth194_update_irq]), hb2]
      apply eth194_tx_loop_self fb16 0x0C000000 (by decide)
      · simp [eth194_update_irq, readFb, leValue, cpu_physical_memory_read, overlapWorld,
          Function.update]
      · simp [eth194_update_irq, readFb, leValue, cpu_physical_memory_read, overlapWorld,
          Function.update]
      · simp [eth194_update_irq, readFb, leValue, cpu_physical_memory_read, overlapWorld,
          Function.update, fb16, FbLayout.cntOff]

/-- C7 as stated fails, twice.  First, with the stop bit set in the written
value (0x05) the chain `0x1000 → 0` is not walked: `curr` stays `0x1000` and the
transmit bit stays set in `cmd`.  Second, the chain `0x205 → 0x200 → 0` is finite
and acyclic in guest memory, but its descriptors overlap, the `df` byte written
for the first changes the `nphy` of the second, and the write with value 0x04
does not return for any number of loop iterations. -/
theorem transmit_trigger_not_always_drained :
    (IsChain fb16 stoppedTxWorld.mem stoppedTxWorld.s.curr [0x1000] ∧
      ∃ w', eth194_ioport_write fb16 1 stoppedTxWorld 0 0x05 = .ok w' ∧
        w'.s.curr = 0x1000 ∧ w'.s.cmd &&& 0x04 = 0x04) ∧
    (IsChain fb16 overlapWorld.mem overlapWorld.s.curr [0x205, 0x200] ∧
      [0x205, 0x200].Nodup ∧
      ∀ fuel, eth194_ioport_write fb16 fuel overlapWorld 0 0x04 = .error Fault.outOfFuel) := by
  refine ⟨⟨?_, ?_⟩, ?_, by decide, ?_⟩
  · simp [IsChain, readFb, leValue, cpu_physical_memory_read, stoppedTxWorld, zeroState, fb16,
      FbLayout.cntOff]
  · exact ⟨_, rfl, rfl, by decide⟩
  · simp [IsChain, readFb, leValue, cpu_physical_memory_read, overlapWorld, zeroState, fb16,
      FbLayout.cntOff]
  · intro fuel
    obtain ⟨w0, hw, hm, hcu, -, -⟩ :=
      cmd_write_trans fb16 fuel overlapWorld 0 0x04 (by decide) (by decide) (by decide)
    rw [hw, overlap_never_returns fuel w0 hm (by rw [hcu]; rfl)]

/-- C7, amended: after a write to the CMD register whose value has the
transmit-trigger bit (0x04) set and the stop bit (0x01) clear, for any finite
transmit chain of pairwise non-overlapping descriptors rooted at `curr`, the
write returns (given fuel for one iteration per descriptor) with `curr == 0`
and the transmit-trigger bit of `cmd` clear. -/
theorem transmit_trigger_drains (L : FbLayout) (w : World) (addr val fuel : Nat) (l : List Nat)
    (haddr : addr &&& 0xf = 0) (htrans : val &&& 0x04 ≠ 0) (hstop : val &&& 0x01 = 0)
    (hchain : IsChain L w.mem w.s.curr l) (hno : NonOverlapping L l) (hfuel : l.length ≤ fuel) :
    ∃ w', eth194_ioport_write L fuel w addr val = .ok w' ∧ w'.s.curr = 0 ∧
      w'.s.cmd &&& 0x04 = 0 := by
  obtain ⟨w0, hw, hm, hcu, -, -⟩ := cmd_write_trans L fuel w addr val haddr htrans hstop
  rw [← hm, ← hcu] at hchain
  obtain ⟨w1, hok, hcurr, -, -, -, -⟩ := eth194_tx_loop_chain L l w0 fuel hchain hno hfuel
  rw [hok] at hw
  refine ⟨_, hw, ?_, ?_⟩
  · simpa [eth194_update_irq] using hcurr
  · simp only [eth194_update_irq]
    exact and_four_bnot32 _

theorem chainWorld_isChain :
    IsChain fb16 chainWorld.mem chainWorld.s.curr [0x1000, 0x2000] := by
  simp [IsChain, readFb, leValue, cpu_physical_memory_read, chainWorld, zeroState, fb16,
    FbLayout.cntOff]

theorem chainWorld_nonOverlapping : NonOverlapping fb16 [0x1000, 0x2000] := by
  simp [NonOverlapping, fb16, FbLayout.sizeof]

/-- C7, amended, at the chain `0x1000 → 0x2000 → 0` and the value 0x04. -/
theorem transmit_trigger_drains_witness :
    0 &&& 0xf = 0 ∧ 0x04 &&& 0x04 ≠ 0 ∧ 0x04 &&& 0x01 = 0 ∧
    IsChain fb16 chainWorld.mem chainWorld.s.curr [0x1000, 0x2000] ∧
    NonOverlapping fb16 [0x1000, 0x2000] ∧ [0x1000, 0x2000].length ≤ 2 ∧
    ∃ w', eth194_ioport_write fb16 2 chainWorld 0 0x04 = .ok w' ∧ w'.s.curr = 0 ∧
      w'.s.cmd &&& 0x04 = 0 :=
  ⟨by decide, by decide, by decide, chainWorld_isChain, chainWorld_nonOverlapping, by decide,
   transmit_trigger_drains fb16 chainWorld 0 0x04 2 [0x1000, 0x2000] (by decide) (by decide)
     (by decide) chainWorld_isChain chainWorld_nonOverlapping (by decide)⟩

/-- C8 as stated fails, twice.  First, the device is running (`cmd = 0`) and
`curr` is the head of the chain `0x1000 → 0x2000 → 0` of two non-overlapping
descriptors, yet the transmit trigger with the value 0x05 (bit 0x04 together
with the stop bit) changes nothing but `cmd`: no frame is handed to the host
and both descriptors keep `df == 0`.  Second, the chain `0x1000 → 0` has one
descriptor with `cnt = 2000`, more than the 1514 bytes of its payload array:
the trigger 0x04 makes the host send primitive read past the end of `d`, and
the write has no defined result. -/
theorem transmit_chain_not_always_sent :
    (chainWorld.s.cmd &&& 0x01 = 0 ∧
      IsChain fb16 chainWorld.mem chainWorld.s.curr [0x1000, 0x2000] ∧
      NonOverlapping fb16 [0x1000, 0x2000] ∧ 0x05 &&& 0x04 ≠ 0 ∧
      ∀ fuel, ∃ w', eth194_ioport_write fb16 fuel chainWorld 0 0x05 = .ok w' ∧
        w'.sent = [] ∧ w'.s.curr = 0x1000 ∧
        (readFb fb16 w'.mem 0x1000).df = 0 ∧ (readFb fb16 w'.mem 0x2000).df = 0) ∧
    (oversizedWorld.s.cmd &&& 0x01 = 0 ∧ oversizedWorld.s.curr = 0x1000 ∧
      (readFb fb16 oversizedWorld.mem 0x1000).nphy = 0 ∧
      (readFb fb16 oversizedWorld.mem 0x1000).cnt = 2000 ∧ fb16.dCap = 1514 ∧
      ∀ fuel, eth194_ioport_write fb16 (fuel + 1) oversizedWorld 0 0x04
        = .error Fault.undefinedBehaviour) := by
  refine ⟨⟨by decide, chainWorld_isChain, chainWorld_nonOverlapping, by decide,
    fun _ => ⟨_, rfl, rfl, rfl, ?_, ?_⟩⟩, by decide, rfl, ?_, ?_, rfl, ?_⟩
  · simp [readFb, cpu_physical_memory_read, chainWorld]
  · simp [readFb, cpu_physical_memory_read, chainWorld]
  · simp [readFb, leValue, cpu_physical_memory_read, oversizedWorld]
  · simp [readFb, leValue, cpu_physical_memory_read, oversizedWorld, fb16, FbLayout.cntOff]
  · intro fuel
    obtain ⟨w0, hw, hm, hcu, -, -⟩ :=
      cmd_write_trans fb16 (fuel + 1) oversizedWorld 0 0x04 (by decide) (by decide) (by decide)
    have hb : eth194_tx_body fb16 w0 = .error Fault.undefinedBehaviour := by
      unfold eth194_tx_body
      simp only [hm, hcu]
      rw [if_pos]
      simp [readFb, leValue, cpu_physical_memory_read, oversizedWorld, fb16, FbLayout.cntOff,
        zeroState]
    rw [hw]
    simp only [eth194_tx_loop]
    rw [if_pos (by rw [hcu]; decide), hb]

/-- C8, amended: for every finite chain `a1 → a2 → ... → an → 0` of pairwise
non-overlapping descriptors with `curr == a1`, each with `cnt` no larger than
its payload array, a write to CMD whose value has the transmit-trigger bit
(0x04) set and the stop bit (0x01) clear returns (given fuel for one iteration
per descriptor) after exactly `n` calls to the host send primitive, the `i`-th
carrying the bytes `d[0..cnt_i)` of descriptor `a_i` in chain order, and
afterwards every descriptor `a_i` has `df == 0x0C`.  Whether the device was
stopped before the write does not matter. -/
theorem transmit_chain_sends_all (L : FbLayout) (w : World) (addr val fuel : Nat) (l : List Nat)
    (haddr : addr &&& 0xf = 0) (htrans : val &&& 0x04 ≠ 0) (hstop : val &&& 0x01 = 0)
    (hchain : IsChain L w.mem w.s.curr l) (hno : NonOverlapping L l) (hfuel : l.length ≤ fuel) :
    ∃ w', eth194_ioport_write L fuel w addr val = .ok w' ∧
      w'.sent = w.sent ++ l.map (fbPayload L w.mem) ∧
      w'.sent.length = w.sent.length + l.length ∧
      ∀ a ∈ l, (readFb L w'.mem a).df = 0x0C := by
  obtain ⟨w0, hw, hm, hcu, hse, -⟩ := cmd_write_trans L fuel w addr val haddr htrans hstop
  rw [← hm, ← hcu] at hchain
  obtain ⟨w1, hok, -, -, hsent, hdf, -⟩ := eth194_tx_loop_chain L l w0 fuel hchain hno hfuel
  rw [hok] at hw
  have hs : (eth194_update_irq
      { w1 with s := { w1.s with
          isr := (w1.s.isr ||| 0x02) % 256
          cmd := (w1.s.cmd &&& bnot32 0x04) % 256 } }).sent
      = w.sent ++ l.map (fbPayload L w.mem) := by
    simp only [eth194_update_irq]
    rw [hsent, hse, hm]
  refine ⟨_, hw, hs, ?_, ?_⟩
  · rw [hs]; simp
  · intro a ha
    simp [eth194_update_irq, readFb, cpu_physical_memory_read, hdf a ha]

/-- C8, amended, at the chain `0x1000 → 0x2000 → 0` with payload lengths 64
and 128 and the value 0x04: two frames are sent, the 64 bytes of the first
descriptor, then the 128 bytes of the second. -/
theorem transmit_chain_sends_all_witness :
    0 &&& 0xf = 0 ∧ 0x04 &&& 0x04 ≠ 0 ∧ 0x04 &&& 0x01 = 0 ∧
    IsChain fb16 chainWorld.mem chainWorld.s.curr [0x1000, 0x2000] ∧
    NonOverlapping fb16 [0x1000, 0x2000] ∧ [0x1000, 0x2000].length ≤ 2 ∧
    fbPayload fb16 chainWorld.mem 0x1000 = List.replicate 64 0xAA ∧
    fbPayload fb16 chainWorld.mem 0x2000 = List.replicate 128 0xBB ∧
    ∃ w', eth194_ioport_write fb16 2 chainWorld 0 0x04 = .ok w' ∧
      w'.sent = chainWorld.sent ++ [0x1000, 0x2000].map (fbPayload fb16 chainWorld.mem) ∧
      w'.sent.length = chainWorld.sent.length + [0x1000, 0x2000].length ∧
      ∀ a ∈ [0x1000, 0x2000], (readFb fb16 w'.mem a).df = 0x0C :=
  ⟨by decide, by decide, by decide, chainWorld_isChain, chainWorld_nonOverlapping, by decide,
   by decide, by decide,
   transmit_chain_sends_all fb16 chainWorld 0 0x04 2 [0x1000, 0x2000] (by decide) (by decide)
     (by decide) chainWorld_isChain chainWorld_nonOverlapping (by decide)⟩

/-! ## The state serializer -/

/-- The post-load step sets `rxcr` to `0x0c` for every version below 2. -/
theorem eth194_post_load_old_version (s : ETH194State) (version_id : Int)
    (h : version_id < 2) :
    (eth194_post_load s version_id).1 = 0 ∧ (eth194_post_load s version_id).2.rxcr = 0x0c := by
  unfold eth194_post_load
  rw [if_pos h]
  exact ⟨rfl, rfl⟩

/-- The post-load step leaves the state as loaded for every version from 2 on. -/
theorem eth194_post_load_new_version (s : ETH194State) (version_id : Int)
    (h : 2 ≤ version_id) :
    eth194_post_load s version_id = (0, s) := by
  unfold eth194_post_load
  rw [if_neg (by omega)]

/-- C9, at the failing input: the version `vmstate_eth194` declares (0) is below
the version in which it introduces `rxcr` (2), so for a state loaded with
`rxcr = 0x55` under the current version the post-load step returns 0 and
replaces the stored `rxcr` by `0x0c`. -/
theorem eth194_post_load_current_version_overwrites_rxcr :
    vmstate_eth194.version_id < vmstate_eth194_rxcr_version ∧
    (eth194_post_load { zeroState with rxcr := 0x55 } vmstate_eth194.version_id).1 = 0 ∧
    (eth194_post_load { zeroState with rxcr := 0x55 } vmstate_eth194.version_id).2.rxcr
      = 0x0c := by
  refine ⟨by decide, rfl, rfl⟩

/-! ## Admission of frames from the host -/

/-- C10 as stated fails: on a stopped device with `curw = 0x1000` the admission
test returns 1 (true), while `eth194_receive` refuses the frame. -/
theorem eth194_can_receive_when_stopped :
    stoppedRingWorld.s.cmd &&& 0x01 ≠ 0 ∧
    eth194_can_receive stoppedRingWorld.s = 1 ∧
    eth194_receive fb16 zeroFb stoppedRingWorld (List.replicate 40 0)
      = .ok (-1, stoppedRingWorld) := by
  refine ⟨by decide, by decide, ?_⟩
  exact eth194_receive_refused_eq _ _ _ _ (Or.inr (by decide))

/-- C10, amended: for every device state, `eth194_can_receive` returns false
(0) exactly when the device is not stopped and `curw == 0`, and true (1)
otherwise, that is when `curw != 0` or the device is stopped; on a stopped
device it returns true although `eth194_receive` refuses. -/
theorem eth194_can_receive_eq_zero_iff (s : ETH194State) :
    (eth194_can_receive s = 0 ↔ (s.cmd &&& 0x01 = 0 ∧ s.curw = 0)) ∧
    (eth194_can_receive s = 1 ↔ (s.cmd &&& 0x01 ≠ 0 ∨ s.curw ≠ 0)) := by
  unfold eth194_can_receive eth194_buffer_full E8390_STOP
  by_cases h1 : s.cmd &&& 1 = 0 <;> by_cases h2 : s.curw = 0 <;> simp [h1, h2]

/-! ## Offsets, pages and windows of the register file -/

theorem and_fifteen (a : Nat) : a &&& 0xf = a % 16 :=
  Nat.and_pow_two_sub_one_eq_mod a 4

theorem ioport_write_mask (L : FbLayout) (fuel : Nat) (w : World) (a b v : Nat)
    (h : a &&& 0xf = b &&& 0xf) :
    eth194_ioport_write L fuel w a v = eth194_ioport_write L fuel w b v := by
  unfold eth194_ioport_write
  simp only [h]

theorem ioport_read_mask (s : ETH194State) (a b : Nat) (h : a &&& 0xf = b &&& 0xf) :
    eth194_ioport_read s a = eth194_ioport_read s b := by
  unfold eth194_ioport_read
  simp only [h]

/-- C11 as stated fails for the read at 0x1f: on a device with `curw = 0x1000`
the mapped read at 0x1f resets the ring pointer, the read at `0x1f & 0xF = 0xf`
leaves it. -/
theorem mapped_read_at_1f_is_not_masked :
    (eth194_read ringWorld 0x1f).2.s.curw = 0 ∧
    (eth194_read ringWorld (0x1f &&& 0xf)).2.s.curw = 0x1000 := by
  exact ⟨rfl, rfl⟩

/-- C11, amended: for every state, every address `a` and every value `v`, the
mapped write at `a` produces the same result as the write at `a & 0xF`; the
mapped read at `a` returns the same value and the same state as the read at
`a & 0xF` for every `a` other than 0x1f, and at 0x1f it resets the device and
returns 0 instead. -/
theorem mapped_access_masks_offset (L : FbLayout) (fuel : Nat) (w : World) (a v : Nat) :
    eth194_write L fuel w a v = eth194_write L fuel w (a &&& 0xf) v ∧
    eth194_read w a =
      if a = 0x1f then (0, { w with s := eth194_reset w.s }) else eth194_read w (a &&& 0xf) := by
  have h1 : a % 2 ^ 32 &&& 0xf = (a &&& 0xf) % 2 ^ 32 &&& 0xf := by
    simp only [and_fifteen]; omega
  constructor
  · unfold eth194_write
    exact ioport_write_mask L fuel w _ _ _ h1
  · by_cases h : a = 0x1f
    · rw [if_pos h, h]; rfl
    · rw [if_neg h]
      have h2 : a &&& 0xf ≠ 0x1f := by rw [and_fifteen]; omega
      unfold eth194_read
      rw [if_neg h, if_neg h2, ioport_read_mask w.s _ _ h1]

theorem ioport_read_unhandled (s : ETH194State) (addr : Nat) (haddr : addr &&& 0xf ≠ 0)
    (h : ¬ readSwitchHandles ((addr &&& 0xf) ||| ((s.cmd >>> 6) <<< 4))) :
    eth194_ioport_read s addr = 0 := by
  unfold eth194_ioport_read
  simp only [E8390_CMD, if_neg haddr]
  generalize (addr &&& 0xf) ||| ((s.cmd >>> 6) <<< 4) = offset at h ⊢
  simp only [readSwitchHandles, not_or] at h
  obtain ⟨h1, h2, h3, h4, h5, h6, h7, h8, h9, h10, h11, h12, h13, h14, h15, h16, h17, h18⟩ := h
  rw [if_neg h1, if_neg h2, if_neg h3, if_neg h4, if_neg h5, if_neg h6, if_neg h7, if_neg h8,
    if_neg h9, if_neg h10, if_neg h11, if_neg h12, if_neg h13, if_neg h14, if_neg h15,
    if_neg h16, if_neg h17, if_neg h18]

theorem ioport_write_unhandled (L : FbLayout) (fuel : Nat) (w : World) (addr val : Nat)
    (haddr : addr &&& 0xf ≠ 0)
    (h : ¬ writeSwitchHandles ((addr &&& 0xf) ||| ((w.s.cmd >>> 6) <<< 4))) :
    eth194_ioport_write L fuel w addr val = .ok w := by
  unfold eth194_ioport_write
  simp only [E8390_CMD, if_neg haddr]
  generalize (addr &&& 0xf) ||| ((w.s.cmd >>> 6) <<< 4) = offset at h ⊢
  simp only [writeSwitchHandles, not_or] at h
  obtain ⟨h1, h2, h3, h4, h5, h6, h7, h8, h9, h10, h11, h12, h13, h14, h15, h16, h17⟩ := h
  unfold eth194_ioport_write_switch
  rw [if_neg h1, if_neg h2, if_neg h3, if_neg h4, if_neg h5, if_neg h6, if_neg h7, if_neg h8,
    if_neg h9, if_neg h10, if_neg h11, if_neg h12, if_neg h13, if_neg h14, if_neg h15,
    if_neg h16, if_neg h17]

theorem page2_unhandled (x : Nat) (hx : x < 16) (h0 : x ≠ 0) :
    ¬ readSwitchHandles (x ||| (2 <<< 4)) ∧ ¬ writeSwitchHandles (x ||| (2 <<< 4)) := by
  interval_cases x <;> first | exact absurd rfl h0 | decide

/-- C12: for every state and every offset other than CMD, when the effective
index `offset | (cmd >> 6) << 4` is not a case of the read switch,
`eth194_ioport_read` returns 0, and when it is not a case of the write switch,
`eth194_ioport_write` leaves the device state, guest memory, the interrupt line
and the frames sent unchanged; with page 2 selected both hold for all offsets
1..15. -/
theorem unknown_offsets_ignored (L : FbLayout) (fuel : Nat) (w : World) (addr val : Nat)
    (haddr : addr &&& 0xf ≠ 0) :
    (¬ readSwitchHandles ((addr &&& 0xf) ||| ((w.s.cmd >>> 6) <<< 4)) →
      eth194_ioport_read w.s addr = 0) ∧
    (¬ writeSwitchHandles ((addr &&& 0xf) ||| ((w.s.cmd >>> 6) <<< 4)) →
      eth194_ioport_write L fuel w addr val = .ok w) ∧
    (w.s.cmd >>> 6 = 2 →
      eth194_ioport_read w.s addr = 0 ∧ eth194_ioport_write L fuel w addr val = .ok w) := by
  refine ⟨ioport_read_unhandled w.s addr haddr, ioport_write_unhandled L fuel w addr val haddr,
    ?_⟩
  intro hpage
  have hx : addr &&& 0xf < 16 := by rw [and_fifteen]; omega
  have h2 := page2_unhandled (addr &&& 0xf) hx haddr
  rw [← hpage] at h2
  exact ⟨ioport_read_unhandled w.s addr haddr h2.1,
    ioport_write_unhandled L fuel w addr val haddr h2.2⟩

/-- C12 at page 2, offset 4 (the TSR offset of page 0) and value 0xFF. -/
theorem unknown_offsets_ignored_witness :
    0x04 &&& 0xf ≠ 0 ∧ page2World.s.cmd >>> 6 = 2 ∧
    ((¬ readSwitchHandles ((0x04 &&& 0xf) ||| ((page2World.s.cmd >>> 6) <<< 4)) →
      eth194_ioport_read page2World.s 0x04 = 0) ∧
    (¬ writeSwitchHandles ((0x04 &&& 0xf) ||| ((page2World.s.cmd >>> 6) <<< 4)) →
      eth194_ioport_write fb16 0 page2World 0x04 0xFF = .ok page2World) ∧
    (page2World.s.cmd >>> 6 = 2 →
      eth194_ioport_read page2World.s 0x04 = 0 ∧
      eth194_ioport_write fb16 0 page2World 0x04 0xFF = .ok page2World)) :=
  ⟨by decide, by decide, unknown_offsets_ignored fb16 0 page2World 0x04 0xFF (by decide)⟩

theorem page1_phys_offset (i : Nat) (hi : i < 6) :
    ((1 + i) &&& 0xf) ||| (1 <<< 4) = EN1_PHYS + i ∧ (1 + i) &&& 0xf ≠ 0 := by
  interval_cases i <;> decide

theorem page1_mult_offset (j : Nat) (hj : j < 8) :
    ((8 + j) &&& 0xf) ||| (1 <<< 4) = EN1_MULT + j ∧ (8 + j) &&& 0xf ≠ 0 := by
  interval_cases j <;> decide

/-- A write to an offset other than CMD goes through the switch. -/
theorem ioport_write_reg (L : FbLayout) (fuel : Nat) (w : World) (addr val offset : Nat)
    (haddr : addr &&& 0xf ≠ 0) (hoff : (addr &&& 0xf) ||| ((w.s.cmd >>> 6) <<< 4) = offset) :
    eth194_ioport_write L fuel w addr val = .ok (eth194_ioport_write_switch w offset val) := by
  unfold eth194_ioport_write
  simp only [E8390_CMD, if_neg haddr, hoff]

theorem switch_phys (w : World) (val i : Nat) (hi : i < 6) :
    eth194_ioport_write_switch w (EN1_PHYS + i) val
      = { w with s := { w.s with phys := Function.update w.s.phys i (val % 256) } } := by
  unfold eth194_ioport_write_switch EN0_IMR EN0_TCNTLO EN0_TCNTHI EN0_RCNTLO EN0_RCNTHI EN0_RXCR
    EN0_ISR EN1_PHYS
  rw [if_neg (by omega), if_neg (by omega), if_neg (by omega), if_neg (by omega)]
  rw [if_neg (Nat.ne_of_gt (by omega)), if_neg (Nat.ne_of_gt (by omega)),
    if_neg (Nat.ne_of_gt (by omega)), if_pos ⟨by omega, by omega⟩]
  simp

theorem switch_mult (w : World) (val j : Nat) (hj : j < 8) :
    eth194_ioport_write_switch w (EN1_MULT + j) val
      = { w with s := { w.s with mult := Function.update w.s.mult j (val % 256) } } := by
  unfold eth194_ioport_write_switch EN0_IMR EN0_TCNTLO EN0_TCNTHI EN0_RCNTLO EN0_RCNTHI EN0_RXCR
    EN0_ISR EN1_PHYS EN1_MULT
  rw [if_neg (by omega), if_neg (by omega), if_neg (by omega), if_neg (by omega)]
  rw [if_neg (Nat.ne_of_gt (by omega)), if_neg (Nat.ne_of_gt (by omega)),
    if_neg (Nat.ne_of_gt (by omega)), if_neg (fun h => by omega), if_pos ⟨by omega, by omega⟩]
  simp

theorem ioport_read_phys (s : ETH194State) (addr i : Nat) (hi : i < 6)
    (haddr : addr &&& 0xf ≠ 0) (hoff : (addr &&& 0xf) ||| ((s.cmd >>> 6) <<< 4) = EN1_PHYS + i) :
    eth194_ioport_read s addr = s.phys i := by
  unfold eth194_ioport_read
  simp only [E8390_CMD, if_neg haddr, hoff]
  unfold EN0_TSR EN0_ISR EN1_PHYS
  rw [if_neg (by omega), if_neg (by omega), if_pos (by omega)]
  simp

theorem ioport_read_mult (s : ETH194State) (addr j : Nat) (hj : j < 8)
    (haddr : addr &&& 0xf ≠ 0) (hoff : (addr &&& 0xf) ||| ((s.cmd >>> 6) <<< 4) = EN1_MULT + j) :
    eth194_ioport_read s addr = s.mult j := by
  unfold eth194_ioport_read
  simp only [E8390_CMD, if_neg haddr, hoff]
  unfold EN0_TSR EN0_ISR EN1_PHYS EN1_MULT
  rw [if_neg (by omega), if_neg (by omega), if_neg (by omega), if_pos (by omega)]
  simp

/-- C19: with page 1 selected, for every `i` in 0..5 and byte `v`, writing `v`
at offset `1+i` stores `phys[i] = v` and changes nothing else, and a following
read at offset `1+i` returns `v`; for every `j` in 0..7, writing `v` at offset
`8+j` stores `mult[j] = v` and changes nothing else, and a following read at
offset `8+j` returns `v`. -/
theorem page1_windows_round_trip (L : FbLayout) (fuel : Nat) (w : World) (v : Nat)
    (hpage : w.s.cmd >>> 6 = 1) (hv : v < 256) :
    (∀ i, i < 6 →
      eth194_ioport_write L fuel w (1 + i) v
        = .ok { w with s := { w.s with phys := Function.update w.s.phys i v } } ∧
      eth194_ioport_read { w.s with phys := Function.update w.s.phys i v } (1 + i) = v) ∧
    (∀ j, j < 8 →
      eth194_ioport_write L fuel w (8 + j) v
        = .ok { w with s := { w.s with mult := Function.update w.s.mult j v } } ∧
      eth194_ioport_read { w.s with mult := Function.update w.s.mult j v } (8 + j) = v) := by
  constructor
  · intro i hi
    obtain ⟨hoff, hne⟩ := page1_phys_offset i hi
    have hoff1 : ((1 + i) &&& 0xf) ||| ((w.s.cmd >>> 6) <<< 4) = EN1_PHYS + i := by
      rw [hpage]; exact hoff
    constructor
    · rw [ioport_write_reg L fuel w (1 + i) v _ hne hoff1, switch_phys w v i hi,
        Nat.mod_eq_of_lt hv]
    · rw [ioport_read_phys { w.s with phys := Function.update w.s.phys i v } (1 + i) i hi hne
        hoff1]
      simp
  · intro j hj
    obtain ⟨hoff, hne⟩ := page1_mult_offset j hj
    have hoff1 : ((8 + j) &&& 0xf) ||| ((w.s.cmd >>> 6) <<< 4) = EN1_MULT + j := by
      rw [hpage]; exact hoff
    constructor
    · rw [ioport_write_reg L fuel w (8 + j) v _ hne hoff1, switch_mult w v j hj,
        Nat.mod_eq_of_lt hv]
    · rw [ioport_read_mult { w.s with mult := Function.update w.s.mult j v } (8 + j) j hj hne
        hoff1]
      simp

/-- C19 at `cmd = 0x40` and the byte `0x5A`. -/
theorem page1_windows_round_trip_witness :
    page1World.s.cmd >>> 6 = 1 ∧ 0x5A < 256 ∧
    ((∀ i, i < 6 →
      eth194_ioport_write fb16 0 page1World (1 + i) 0x5A
        = .ok { page1World with
            s := { page1World.s with phys := Function.update page1World.s.phys i 0x5A } } ∧
      eth194_ioport_read { page1World.s with phys := Function.update page1World.s.phys i 0x5A }
        (1 + i) = 0x5A) ∧
    (∀ j, j < 8 →
      eth194_ioport_write fb16 0 page1World (8 + j) 0x5A
        = .ok { page1World with
            s := { page1World.s with mult := Function.update page1World.s.mult j 0x5A } } ∧
      eth194_ioport_read { page1World.s with mult := Function.update page1World.s.mult j 0x5A }
        (8 + j) = 0x5A)) :=
  ⟨by decide, by decide, page1_windows_round_trip fb16 0 page1World 0x5A (by decide) (by decide)⟩

/-- C20: the mapped read at 0x1f returns 0 and leaves `isr == 0x80`,
`curr == 0` and `curw == 0` with every other field of the register file, guest
memory and the interrupt line unchanged, so that the next `eth194_receive` is
refused; a mapped read at any other address leaves the whole world unchanged. -/
theorem mapped_read_reset (w : World) :
    eth194_read w 0x1f = (0, { w with s := { w.s with isr := 0x80, curr := 0, curw := 0 } }) ∧
    (∀ L fb buf, eth194_receive L fb (eth194_read w 0x1f).2 buf
      = .ok (-1, (eth194_read w 0x1f).2)) ∧
    (∀ addr, addr ≠ 0x1f → (eth194_read w addr).2 = w) := by
  refine ⟨rfl, ?_, ?_⟩
  · intro L fb buf
    exact eth194_receive_refused_eq L fb _ buf (Or.inl rfl)
  · intro addr h
    unfold eth194_read
    rw [if_neg h]

/-! ## Status and linkage after an accepted frame -/

theorem leValue_lt (b : Nat → Nat) (n : Nat) : ∀ k, leValue b k n < 256 ^ n := by
  induction n with
  | zero => intro k; simp [leValue]
  | succ n ih =>
    intro k
    have := ih (k + 1)
    simp only [leValue, pow_succ]
    omega

theorem testBit_or_one (x i : Nat) :
    (x ||| 0x01).testBit i = (x.testBit i || decide (i = 0)) := by
  rw [Nat.testBit_or, show (0x01 : Nat) = 2 ^ 0 from rfl, Nat.testBit_two_pow]
  congr 1
  by_cases h : i = 0 <;> simp [h, eq_comm]

/-- C15: for every accepted frame (device not stopped, `curw != 0`, the frame
fits the payload array of the descriptor) the call returns, and afterwards
`rsr == 0x21`, the RX bit (0x01) of `isr` is set and every other bit of `isr`
is unchanged. -/
theorem eth194_receive_status (L : FbLayout) (fb : eth194_fb) (w : World) (f : List Nat)
    (hrun : w.s.cmd &&& 0x01 = 0) (hcurw : w.s.curw ≠ 0) (hfit : max f.length 60 ≤ L.dCap)
    (hisr : w.s.isr < 256) :
    ∃ w', eth194_receive L fb w f = .ok ((max f.length 60 : Nat), w') ∧
      w'.s.rsr = 0x21 ∧ w'.s.isr = w.s.isr ||| 0x01 ∧ w'.s.isr.testBit 0 = true ∧
      ∀ i, i ≠ 0 → w'.s.isr.testBit i = w.s.isr.testBit i := by
  have hcap : paddedSize f.length ≤ L.dCap := by rw [paddedSize_eq_max]; exact hfit
  obtain ⟨w', hok, hs, -, -, -, -, -⟩ := eth194_receive_accept L fb w f hrun hcurw hcap
  rw [paddedSize_eq_max] at hok
  have hlt : w.s.isr ||| 0x01 < 2 ^ 8 := Nat.or_lt_two_pow (by simpa using hisr) (by norm_num)
  have hi : w'.s.isr = w.s.isr ||| 0x01 := by
    rw [hs]
    exact Nat.mod_eq_of_lt hlt
  refine ⟨w', hok, by rw [hs], hi, ?_, ?_⟩
  · rw [hi, testBit_or_one]; simp
  · intro i h0
    rw [hi, testBit_or_one]; simp [h0]

/-- C15 at a running device with `curw = 0x1000`, `isr = 0` and a 40-byte
frame. -/
theorem eth194_receive_status_witness :
    ringWorld.s.cmd &&& 0x01 = 0 ∧ ringWorld.s.curw ≠ 0 ∧
    max (List.replicate 40 0xAB).length 60 ≤ fb16.dCap ∧ ringWorld.s.isr < 256 ∧
    ∃ w', eth194_receive fb16 zeroFb ringWorld (List.replicate 40 0xAB)
        = .ok ((max (List.replicate 40 0xAB).length 60 : Nat), w') ∧
      w'.s.rsr = 0x21 ∧ w'.s.isr = ringWorld.s.isr ||| 0x01 ∧ w'.s.isr.testBit 0 = true ∧
      ∀ i, i ≠ 0 → w'.s.isr.testBit i = ringWorld.s.isr.testBit i :=
  ⟨by decide, by decide, by decide, by decide,
   eth194_receive_status fb16 zeroFb ringWorld (List.replicate 40 0xAB) (by decide) (by decide)
     (by decide) (by decide)⟩

/-- An accepted frame changes no byte of guest memory outside the descriptor
at `curw`, and keeps the `nphy` field of that descriptor when the 32-bit sum
`curw + 2` does not wrap. -/
theorem eth194_receive_keeps_linkage (L : FbLayout) (fb : eth194_fb) (w : World) (f : List Nat)
    (hrun : w.s.cmd &&& 0x01 = 0) (hcurw : w.s.curw ≠ 0) (hfit : max f.length 60 ≤ L.dCap) :
    ∃ w', eth194_receive L fb w f = .ok ((max f.length 60 : Nat), w') ∧
      (∀ a, a < w.s.curw ∨ w.s.curw + L.sizeof ≤ a → w'.mem a = w.mem a) ∧
      (w.s.curw + 2 < 2 ^ 32 →
        (readFb L w'.mem w.s.curw).nphy = (readFb L w.mem w.s.curw).nphy) := by
  have hcap : paddedSize f.length ≤ L.dCap := by rw [paddedSize_eq_max]; exact hfit
  obtain ⟨w', hok, -, -, hmem, hout, -, -⟩ := eth194_receive_accept L fb w f hrun hcurw hcap
  rw [paddedSize_eq_max] at hok
  refine ⟨w', hok, hout, ?_⟩
  intro hA
  rw [committed_nphy L _ _ _ hmem (by simpa using leValue_lt _ 4 0), Nat.mod_eq_of_lt hA,
    leValue_shift]
  rfl

/-- C18, at the failing input: with `curw = 0xFFFFFFFE` the `nphy` field of the
descriptor at `curw` (guest address `0x100000000`) holds 9 before an accepted
30-byte frame and 0 after it, the value of the four bytes at guest address 0
(the 32-bit sum `curw + 2`); the bytes outside the descriptor are unchanged. -/
theorem eth194_receive_overwrites_nphy_after_wrap :
    (readFb fb16 wrapWorld2.mem 0xFFFFFFFE).nphy = 9 ∧
    ∃ w', eth194_receive fb16 zeroFb wrapWorld2 (List.replicate 30 0) = .ok (60, w') ∧
      (readFb fb16 w'.mem 0xFFFFFFFE).nphy = 0 ∧
      ∀ a, a < 0xFFFFFFFE ∨ 0xFFFFFFFE + fb16.sizeof ≤ a → w'.mem a = wrapWorld2.mem a := by
  constructor
  · simp [readFb, leValue, cpu_physical_memory_read, wrapWorld2]
  · have hcap : paddedSize (List.replicate 30 0).length ≤ fb16.dCap := by
      simp [paddedSize, MIN_BUF_SIZE, fb16]
    obtain ⟨w', hok, -, -, hmem, hout, -, -⟩ :=
      eth194_receive_accept fb16 zeroFb wrapWorld2 (List.replicate 30 0)
        (by simp [wrapWorld2, zeroState]) (by simp [wrapWorld2, zeroState]) hcap
    have hn : leValue (cpu_physical_memory_read wrapWorld2.mem
        ((wrapWorld2.s.curw + 2) % 2 ^ 32)) 0 4 = 0 := by
      simp [leValue, cpu_physical_memory_read, wrapWorld2, zeroState]
    rw [hn] at hmem
    have hc : wrapWorld2.s.curw = 0xFFFFFFFE := rfl
    rw [hc] at hmem hout
    refine ⟨w', ?_, ?_, hout⟩
    · simpa [paddedSize, MIN_BUF_SIZE] using hok
    · rw [committed_nphy fb16 _ _ _ hmem (by norm_num)]

/-! ## Interrupt status after a write to the command register -/

theorem and_two_pow_of_testBit_false (x k : Nat) (h : x.testBit k = false) : x &&& 2 ^ k = 0 := by
  apply Nat.eq_of_testBit_eq
  intro i
  rw [Nat.testBit_and, Nat.testBit_two_pow, Nat.zero_testBit]
  by_cases hk : k = i
  · subst hk; simp [h]
  · simp [hk]

theorem and_two_pow_of_testBit_true (x k : Nat) (h : x.testBit k = true) :
    x &&& 2 ^ k = 2 ^ k := by
  apply Nat.eq_of_testBit_eq
  intro i
  rw [Nat.testBit_and, Nat.testBit_two_pow]
  by_cases hk : k = i
  · subst hk; simp [h]
  · simp [hk]

/-- Bits of `isr` after `isr |= ENISR_TX; isr |= ENISR_RDC`. -/
theorem testBit_isr_tx_rdc (x i : Nat) :
    (((x ||| 0x02) % 256 ||| 0x40) % 256).testBit i
      = (decide (i < 8) && (x.testBit i || decide (i = 1) || decide (i = 6))) := by
  rw [show (0x02 : Nat) = 2 ^ 1 from rfl, show (0x40 : Nat) = 2 ^ 6 from rfl,
    show (256 : Nat) = 2 ^ 8 from rfl]
  simp only [Nat.testBit_mod_two_pow, Nat.testBit_or, Nat.testBit_two_pow]
  by_cases h8 : i < 8 <;> by_cases h1 : i = 1 <;> by_cases h6 : i = 6 <;>
    simp [h8, h1, h6, eq_comm]

/-- Bits of `isr` after `isr |= ENISR_TX`. -/
theorem testBit_isr_tx (x i : Nat) :
    ((x ||| 0x02) % 256).testBit i = (decide (i < 8) && (x.testBit i || decide (i = 1))) := by
  rw [show (0x02 : Nat) = 2 ^ 1 from rfl, show (256 : Nat) = 2 ^ 8 from rfl]
  simp only [Nat.testBit_mod_two_pow, Nat.testBit_or, Nat.testBit_two_pow]
  by_cases h8 : i < 8 <;> by_cases h1 : i = 1 <;> simp [h8, h1, eq_comm]

/-- Bits of `isr` after `isr &= ~ENISR_RESET`. -/
theorem testBit_isr_clear_reset (x i : Nat) :
    ((x &&& bnot32 0x80) % 256).testBit i = (decide (i < 7) && x.testBit i) := by
  rw [show (0x80 : Nat) = 2 ^ 7 from rfl, show (256 : Nat) = 2 ^ 8 from rfl]
  simp only [Nat.testBit_mod_two_pow, Nat.testBit_and, testBit_bnot32, Nat.testBit_two_pow]
  by_cases h7 : i < 7
  · have h8 : i < 8 := by omega
    have h32 : i < 32 := by omega
    have hne : ¬ (7 = i) := by omega
    simp [h7, h8, h32, hne]
  · by_cases h8 : i < 8
    · have h : 7 = i := by omega
      subst h; simp
    · simp [h7, h8]

/-- Bits of `isr` after `isr |= ENISR_RDC`. -/
theorem testBit_isr_rdc (x i : Nat) :
    ((x ||| 0x40) % 256).testBit i = (decide (i < 8) && (x.testBit i || decide (i = 6))) := by
  rw [show (0x40 : Nat) = 2 ^ 6 from rfl, show (256 : Nat) = 2 ^ 8 from rfl]
  simp only [Nat.testBit_mod_two_pow, Nat.testBit_or, Nat.testBit_two_pow]
  by_cases h8 : i < 8 <;> by_cases h6 : i = 6 <;> simp [h8, h6, eq_comm]

/-- Registers after one iteration of the transmit loop that returns. -/
theorem eth194_tx_body_regs (L : FbLayout) (w w1 : World) (h : eth194_tx_body L w = .ok w1) :
    w1.s.isr = ((w.s.isr ||| 0x02) % 256 ||| 0x40) % 256 ∧ w1.s.tsr = 0x01 := by
  unfold eth194_tx_body at h
  simp only at h
  split at h
  · cases h
  · cases h
    exact ⟨rfl, rfl⟩

/-- What a returning transmit loop does to `curr`, `isr` and `tsr`. -/
theorem eth194_tx_loop_regs (L : FbLayout) :
    ∀ (fuel : Nat) (w w' : World), eth194_tx_loop L fuel w = .ok w' →
      w'.s.curr = 0 ∧
      (w.s.isr.testBit 7 = false → w'.s.isr.testBit 7 = false) ∧
      (∀ i, i < 8 → w.s.isr.testBit i = true → w'.s.isr.testBit i = true) ∧
      (w.s.curr ≠ 0 → w'.s.isr.testBit 6 = true ∧ w'.s.tsr = 0x01) := by
  intro fuel
  induction fuel with
  | zero =>
    intro w w' h
    simp only [eth194_tx_loop] at h
    split at h
    · cases h
    · cases h
      rename_i h0
      exact ⟨not_not.mp h0, id, fun _ _ h => h, fun hc => absurd hc h0⟩
  | succ n ih =>
    intro w w' h
    simp only [eth194_tx_loop] at h
    split at h
    · cases hb : eth194_tx_body L w with
      | error e => rw [hb] at h; cases h
      | ok w1 =>
        rw [hb] at h
        obtain ⟨hisr, htsr⟩ := eth194_tx_body_regs L w w1 hb
        obtain ⟨h1, h2, h3, h4⟩ := ih w1 w' h
        have h6 : w1.s.isr.testBit 6 = true := by rw [hisr, testBit_isr_tx_rdc]; simp
        refine ⟨h1, ?_, ?_, ?_⟩
        · intro h7
          apply h2
          rw [hisr, testBit_isr_tx_rdc]; simp [h7]
        · intro i hi hset
          apply h3 i hi
          rw [hisr, testBit_isr_tx_rdc]; simp [hi, hset]
        · intro _
          refine ⟨h3 6 (by omega) h6, ?_⟩
          by_cases hc : w1.s.curr = 0
          · cases n with
            | zero =>
              simp only [eth194_tx_loop, hc] at h
              cases h; exact htsr
            | succ m =>
              simp only [eth194_tx_loop, hc] at h
              cases h; exact htsr
          · exact (h4 hc).2
    · cases h
      rename_i h0
      exact ⟨not_not.mp h0, id, fun _ _ h => h, fun hc => absurd hc h0⟩

theorem rdma_requested_iff (v : Nat) :
    v &&& (E8390_RREAD ||| E8390_RWRITE) ≠ 0 ↔ (v &&& 0x08 ≠ 0 ∨ v &&& 0x10 ≠ 0) := by
  unfold E8390_RREAD E8390_RWRITE
  rw [Nat.and_or_distrib_left]
  constructor
  · intro h
    by_contra hc
    rw [not_or, not_not, not_not] at hc
    rw [hc.1, hc.2] at h
    exact h rfl
  · intro h hc
    have h1 : v &&& 0x08 = 0 := by
      apply Nat.eq_of_testBit_eq
      intro i
      have := congrArg (fun x => Nat.testBit x i) hc
      simp only [Nat.testBit_or, Nat.zero_testBit, Bool.or_eq_false_iff] at this
      rw [this.1, Nat.zero_testBit]
    have h2 : v &&& 0x10 = 0 := by
      apply Nat.eq_of_testBit_eq
      intro i
      have := congrArg (fun x => Nat.testBit x i) hc
      simp only [Nat.testBit_or, Nat.zero_testBit, Bool.or_eq_false_iff] at this
      rw [this.2, Nat.zero_testBit]
    rcases h with h | h
    · exact h h1
    · exact h h2

/-- A write to the command register with the stop bit clear: the world in which
the transmit bit is examined, and the rest of the call. -/
theorem cmd_write_run (L : FbLayout) (fuel : Nat) (w : World) (addr val : Nat)
    (haddr : addr &&& 0xf = 0) (hstop : val &&& 0x01 = 0) :
    ∃ w0, (eth194_ioport_write L fuel w addr val =
        if val &&& 0x04 ≠ 0 then
          match eth194_tx_loop L fuel w0 with
          | .error e => .error e
          | .ok w1 =>
            .ok (eth194_update_irq
              { w1 with s := { w1.s with
                  isr := (w1.s.isr ||| 0x02) % 256
                  cmd := (w1.s.cmd &&& bnot32 0x04) % 256 } })
        else .ok w0) ∧
      w0.mem = w.mem ∧ w0.s.curr = w.s.curr ∧ w0.sent = w.sent ∧ w0.s.tsr = w.s.tsr ∧
      w0.s.isr.testBit 7 = false ∧
      ((val &&& 0x08 ≠ 0 ∨ val &&& 0x10 ≠ 0) → w.s.rcnt = 0 → w0.s.isr.testBit 6 = true) := by
  by_cases hc : val &&& (E8390_RREAD ||| E8390_RWRITE) ≠ 0 ∧ w.s.rcnt = 0
  · refine ⟨eth194_update_irq { w with s := { w.s with
        cmd := val % 256
        isr := ((w.s.isr &&& bnot32 ENISR_RESET) % 256 ||| ENISR_RDC) % 256 } },
      ?_, rfl, rfl, rfl, rfl, ?_, ?_⟩
    · unfold eth194_ioport_write
      simp only [haddr, E8390_CMD, E8390_STOP, E8390_TRANS, hstop, if_true, ENISR_TX]
      rw [if_pos hc]
    · simp only [eth194_update_irq, ENISR_RESET, ENISR_RDC]
      rw [testBit_isr_rdc, testBit_isr_clear_reset]; simp
    · intro _ _
      simp only [eth194_update_irq, ENISR_RESET, ENISR_RDC]
      rw [testBit_isr_rdc]; simp
  · refine ⟨{ w with s := { w.s with
        cmd := val % 256
        isr := (w.s.isr &&& bnot32 ENISR_RESET) % 256 } },
      ?_, rfl, rfl, rfl, rfl, ?_, ?_⟩
    · unfold eth194_ioport_write
      simp only [haddr, E8390_CMD, E8390_STOP, E8390_TRANS, hstop, if_true, ENISR_TX]
      rw [if_neg hc]
    · simp only [ENISR_RESET]
      rw [testBit_isr_clear_reset]; simp
    · intro h1 h2
      exact absurd ⟨(rdma_requested_iff val).mpr h1, h2⟩ hc

/-- The command-register write returns on every finite chain of non-overlapping
descriptors, given fuel for one iteration per descriptor. -/
theorem cmd_write_returns_on_chain (L : FbLayout) (fuel : Nat) (w : World) (addr val : Nat)
    (haddr : addr &&& 0xf = 0) (hstop : val &&& 0x01 = 0) (l : List Nat)
    (hchain : IsChain L w.mem w.s.curr l) (hno : NonOverlapping L l) (hfuel : l.length ≤ fuel) :
    ∃ w', eth194_ioport_write L fuel w addr val = .ok w' := by
  obtain ⟨w0, hw, hm, hcu, -, -, -, -⟩ := cmd_write_run L fuel w addr val haddr hstop
  rw [hw]
  by_cases ht : val &&& 0x04 ≠ 0
  · rw [if_pos ht]
    rw [← hm, ← hcu] at hchain
    obtain ⟨w1, hok, -⟩ := eth194_tx_loop_chain L l w0 fuel hchain hno hfuel
    rw [hok]
    exact ⟨_, rfl⟩
  · rw [if_neg ht]
    exact ⟨_, rfl⟩

/-- C13: for every state and every value `v` with the stop bit (0x01) clear,
whenever the write of `v` to CMD returns, the reset-status bit (0x80) of `isr`
is clear, and if `v` has bit 0x08 or 0x10 set while `rcnt == 0` the RDC bit
(0x40) of `isr` is set.  The write returns when the transmit bit of `v` is
clear, and on every finite chain of non-overlapping descriptors. -/
theorem cmd_write_clears_reset_status (L : FbLayout) (fuel : Nat) (w : World) (addr v : Nat)
    (haddr : addr &&& 0xf = 0) (hstop : v &&& 0x01 = 0) :
    (∀ w', eth194_ioport_write L fuel w addr v = .ok w' →
      w'.s.isr &&& 0x80 = 0 ∧
      ((v &&& 0x08 ≠ 0 ∨ v &&& 0x10 ≠ 0) → w.s.rcnt = 0 → w'.s.isr &&& 0x40 = 0x40)) ∧
    (v &&& 0x04 = 0 → ∃ w', eth194_ioport_write L fuel w addr v = .ok w') ∧
    (∀ l, IsChain L w.mem w.s.curr l → NonOverlapping L l → l.length ≤ fuel →
      ∃ w', eth194_ioport_write L fuel w addr v = .ok w') := by
  refine ⟨?_, ?_, fun l h1 h2 h3 => cmd_write_returns_on_chain L fuel w addr v haddr hstop l h1 h2 h3⟩
  · intro w' hret
    obtain ⟨w0, hw, -, -, -, -, h7, h6⟩ := cmd_write_run L fuel w addr v haddr hstop
    rw [hw] at hret
    by_cases ht : v &&& 0x04 ≠ 0
    · rw [if_pos ht] at hret
      cases hl : eth194_tx_loop L fuel w0 with
      | error e => rw [hl] at hret; cases hret
      | ok w1 =>
        rw [hl] at hret
        cases hret
        obtain ⟨-, k7, k6, -⟩ := eth194_tx_loop_regs L fuel w0 w1 hl
        constructor
        · apply and_two_pow_of_testBit_false _ 7
          simp only [eth194_update_irq]
          rw [testBit_isr_tx]; simp [k7 h7]
        · intro hr hz
          apply and_two_pow_of_testBit_true _ 6
          simp only [eth194_update_irq]
          rw [testBit_isr_tx]; simp [k6 6 (by omega) (h6 hr hz)]
    · rw [if_neg ht] at hret
      cases hret
      exact ⟨and_two_pow_of_testBit_false _ 7 h7,
        fun hr hz => and_two_pow_of_testBit_true _ 6 (h6 hr hz)⟩
  · intro ht
    obtain ⟨w0, hw, -⟩ := cmd_write_run L fuel w addr v haddr hstop
    rw [hw, if_neg (by simp [ht])]
    exact ⟨_, rfl⟩

/-- C13 at `isr = 0x82`, `rcnt = 0` and the value 0x0A (start, remote read). -/
theorem cmd_write_clears_reset_status_witness :
    0 &&& 0xf = 0 ∧ 0x0A &&& 0x01 = 0 ∧
    ((∀ w', eth194_ioport_write fb16 0 resetRunningWorld 0 0x0A = .ok w' →
      w'.s.isr &&& 0x80 = 0 ∧
      ((0x0A &&& 0x08 ≠ 0 ∨ 0x0A &&& 0x10 ≠ 0) → resetRunningWorld.s.rcnt = 0 →
        w'.s.isr &&& 0x40 = 0x40)) ∧
    (0x0A &&& 0x04 = 0 → ∃ w', eth194_ioport_write fb16 0 resetRunningWorld 0 0x0A = .ok w') ∧
    (∀ l, IsChain fb16 resetRunningWorld.mem resetRunningWorld.s.curr l →
      NonOverlapping fb16 l → l.length ≤ 0 →
      ∃ w', eth194_ioport_write fb16 0 resetRunningWorld 0 0x0A = .ok w')) ∧
    ∃ w', eth194_ioport_write fb16 0 resetRunningWorld 0 0x0A = .ok w' ∧ w'.s.isr = 0x42 :=
  ⟨by decide, by decide,
   cmd_write_clears_reset_status fb16 0 resetRunningWorld 0 0x0A (by decide) (by decide),
   _, rfl, rfl⟩

/-- C14: after a transmit trigger on a running device (CMD write with bit 0x04
set and the stop bit clear), whenever the write returns the TX bit (0x02) of
`isr` is set, and if `curr != 0` before the write (at least one descriptor was
drained) the RDC bit (0x40) is set as well and `tsr == 0x01`.  With an empty
chain (`curr == 0`) the write returns with TX set; it returns on every finite
chain of non-overlapping descriptors. -/
theorem transmit_trigger_raises_tx (L : FbLayout) (fuel : Nat) (w : World) (addr v : Nat)
    (haddr : addr &&& 0xf = 0) (htrans : v &&& 0x04 ≠ 0) (hstop : v &&& 0x01 = 0) :
    (∀ w', eth194_ioport_write L fuel w addr v = .ok w' →
      w'.s.isr &&& 0x02 = 0x02 ∧
      (w.s.curr ≠ 0 → w'.s.isr &&& 0x40 = 0x40 ∧ w'.s.tsr = 0x01)) ∧
    (w.s.curr = 0 →
      ∃ w', eth194_ioport_write L fuel w addr v = .ok w' ∧ w'.s.isr &&& 0x02 = 0x02) ∧
    (∀ l, IsChain L w.mem w.s.curr l → NonOverlapping L l → l.length ≤ fuel →
      ∃ w', eth194_ioport_write L fuel w addr v = .ok w') := by
  have hsafe : ∀ w', eth194_ioport_write L fuel w addr v = .ok w' →
      w'.s.isr &&& 0x02 = 0x02 ∧
      (w.s.curr ≠ 0 → w'.s.isr &&& 0x40 = 0x40 ∧ w'.s.tsr = 0x01) := by
    intro w' hret
    obtain ⟨w0, hw, -, hcu, -, -, -, -⟩ := cmd_write_run L fuel w addr v haddr hstop
    rw [hw, if_pos htrans] at hret
    cases hl : eth194_tx_loop L fuel w0 with
    | error e => rw [hl] at hret; cases hret
    | ok w1 =>
      rw [hl] at hret
      cases hret
      obtain ⟨-, -, -, k⟩ := eth194_tx_loop_regs L fuel w0 w1 hl
      constructor
      · apply and_two_pow_of_testBit_true _ 1
        simp only [eth194_update_irq]
        rw [testBit_isr_tx]; simp
      · intro hc
        obtain ⟨k6, kt⟩ := k (by rw [hcu]; exact hc)
        refine ⟨?_, kt⟩
        apply and_two_pow_of_testBit_true _ 6
        simp only [eth194_update_irq]
        rw [testBit_isr_tx]; simp [k6]
  refine ⟨hsafe, ?_,
    fun l h1 h2 h3 => cmd_write_returns_on_chain L fuel w addr v haddr hstop l h1 h2 h3⟩
  intro hc
  obtain ⟨w', hret⟩ := cmd_write_returns_on_chain L fuel w addr v haddr hstop [] hc
    List.Pairwise.nil (Nat.zero_le _)
  exact ⟨w', hret, (hsafe w' hret).1⟩

/-- C14 at the chain `0x1000 → 0x2000 → 0` and the value 0x04. -/
theorem transmit_trigger_raises_tx_witness :
    0 &&& 0xf = 0 ∧ 0x04 &&& 0x04 ≠ 0 ∧ 0x04 &&& 0x01 = 0 ∧
    ((∀ w', eth194_ioport_write fb16 2 chainWorld 0 0x04 = .ok w' →
      w'.s.isr &&& 0x02 = 0x02 ∧
      (chainWorld.s.curr ≠ 0 → w'.s.isr &&& 0x40 = 0x40 ∧ w'.s.tsr = 0x01)) ∧
    (chainWorld.s.curr = 0 →
      ∃ w', eth194_ioport_write fb16 2 chainWorld 0 0x04 = .ok w' ∧
        w'.s.isr &&& 0x02 = 0x02) ∧
    (∀ l, IsChain fb16 chainWorld.mem chainWorld.s.curr l → NonOverlapping fb16 l →
      l.length ≤ 2 → ∃ w', eth194_ioport_write fb16 2 chainWorld 0 0x04 = .ok w')) ∧
    ∃ w', eth194_ioport_write fb16 2 chainWorld 0 0x04 = .ok w' ∧ w'.s.isr = 0x42 ∧
      w'.s.tsr = 0x01 :=
  ⟨by decide, by decide, by decide,
   transmit_trigger_raises_tx fb16 2 chainWorld 0 0x04 (by decide) (by decide) (by decide),
   _, rfl, rfl, rfl⟩

/-! ## Termination of the transmit loop -/

/-- On a chain of `n` non-overlapping descriptors the guard of the transmit
loop is still true after fewer than `n` iterations. -/
theorem eth194_tx_loop_chain_short (L : FbLayout) (l : List Nat) :
    ∀ (w : World) (fuel : Nat), IsChain L w.mem w.s.curr l → NonOverlapping L l →
      fuel < l.length → eth194_tx_loop L fuel w = .error Fault.outOfFuel := by
  induction l with
  | nil => intro w fuel _ _ h; simp at h
  | cons b l ih =>
    intro w fuel hch hno hfuel
    obtain ⟨h1, h2, h3, h4⟩ := hch
    cases fuel with
    | zero => simp [eth194_tx_loop, h1, h2]
    | succ n =>
      have hs : 6 ≤ L.sizeof := by unfold FbLayout.sizeof; omega
      rw [List.length_cons] at hfuel
      have hno' := List.pairwise_cons.mp hno
      have hout : ∀ c ∈ l, ∀ x, c < x → x < c + L.sizeof →
          w.mem x = Function.update w.mem b 0x0C x := by
        intro c hc x hx1 hx2
        have := hno'.1 c hc
        rw [Function.update_noteq (by omega)]
      have hbody := eth194_tx_body_ok L w (by rw [h1]; exact h3)
      rw [h1] at hbody
      have hch' := IsChain_congr L _ _ l _ hout h4
      simp only [eth194_tx_loop]
      rw [if_pos (by rw [h1]; exact h2), hbody]
      exact ih _ n hch' hno'.2 (by omega)

/-- When the links from `curr` never reach 0 and the descriptors met are equal
or disjoint, the guard of the transmit loop is true after every number of
iterations. -/
theorem eth194_tx_loop_walk (L : FbLayout) (mem : Nat → Nat) (a : Nat)
    (hnz : ∀ k, nphyWalk L mem a k ≠ 0)
    (hcnt : ∀ k, (readFb L mem (nphyWalk L mem a k)).cnt ≤ L.dCap)
    (hsep : ∀ i j, nphyWalk L mem a i = nphyWalk L mem a j ∨
      nphyWalk L mem a i + L.sizeof ≤ nphyWalk L mem a j ∨
      nphyWalk L mem a j + L.sizeof ≤ nphyWalk L mem a i) :
    ∀ (fuel k : Nat) (w : World), w.s.curr = nphyWalk L mem a k →
      (∀ j x, nphyWalk L mem a j < x → x < nphyWalk L mem a j + L.sizeof → w.mem x = mem x) →
      eth194_tx_loop L fuel w = .error Fault.outOfFuel := by
  intro fuel
  induction fuel with
  | zero => intro k w hc _; simp [eth194_tx_loop, hc, hnz k]
  | succ n ih =>
    intro k w hc hmem
    have hn : (readFb L w.mem (nphyWalk L mem a k)).nphy = nphyWalk L mem a (k + 1) :=
      readFb_nphy_congr L _ _ _ (hmem k)
    have hcn : (readFb L w.mem (nphyWalk L mem a k)).cnt ≤ L.dCap := by
      rw [readFb_cnt_congr L _ _ _ (hmem k)]; exact hcnt k
    have hbody := eth194_tx_body_ok L w (by rw [hc]; exact hcn)
    rw [hc, hn] at hbody
    simp only [eth194_tx_loop]
    rw [if_pos (by rw [hc]; exact hnz k), hbody]
    apply ih (k + 1)
    · rfl
    · intro j x hx1 hx2
      simp only [eth194_update_irq]
      have := hsep k j
      rw [Function.update_noteq (by omega)]
      exact hmem j x hx1 hx2

theorem cycleOverlapWorld_walk (k : Nat) :
    nphyWalk fb16 cycleOverlapWorld.mem cycleOverlapWorld.s.curr k
      = if k % 2 = 0 then 0x205 else 0x200 := by
  induction k with
  | zero => rfl
  | succ n ih =>
    simp only [nphyWalk, ih]
    by_cases h : n % 2 = 0
    · have h1 : ¬ (n + 1) % 2 = 0 := by omega
      rw [if_pos h, if_neg h1]
      simp [readFb, leValue, cpu_physical_memory_read, cycleOverlapWorld]
    · have h1 : (n + 1) % 2 = 0 := by omega
      rw [if_neg h, if_pos h1]
      simp [readFb, leValue, cpu_physical_memory_read, cycleOverlapWorld]

/-- C17 as stated fails on a circular chain whose descriptors overlap.  In
guest memory the links from `curr = 0x205` go `0x205 → 0x200 → 0x205 → ...` and
never reach 0, and every descriptor on the way has `cnt = 0`.  But the `df`
byte the loop writes at `0x205` is the top byte of the `nphy` field of the
descriptor at `0x200`: the second iteration reads `nphy = 0x0C000205`, the third
reads `nphy = 0` there, and the loop stops after 3 iterations with
`curr == 0`; so does the write of 0x04 to CMD. -/
theorem transmit_loop_stops_on_overlapping_cycle :
    (∀ k, nphyWalk fb16 cycleOverlapWorld.mem cycleOverlapWorld.s.curr k ≠ 0) ∧
    (∀ k, nphyWalk fb16 cycleOverlapWorld.mem cycleOverlapWorld.s.curr (k + 2)
      = nphyWalk fb16 cycleOverlapWorld.mem cycleOverlapWorld.s.curr k) ∧
    (∀ k, (readFb fb16 cycleOverlapWorld.mem
      (nphyWalk fb16 cycleOverlapWorld.mem cycleOverlapWorld.s.curr k)).cnt = 0) ∧
    (∃ w', eth194_tx_loop fb16 3 cycleOverlapWorld = .ok w' ∧ w'.s.curr = 0) ∧
    (∃ w', eth194_ioport_write fb16 3 cycleOverlapWorld 0 0x04 = .ok w' ∧ w'.s.curr = 0) := by
  refine ⟨?_, ?_, ?_, ⟨_, rfl, rfl⟩, ⟨_, rfl, rfl⟩⟩
  · intro k; rw [cycleOverlapWorld_walk]; split <;> decide
  · intro k
    rw [cycleOverlapWorld_walk, cycleOverlapWorld_walk]
    have : (k + 2) % 2 = k % 2 := by omega
    rw [this]
  · intro k
    rw [cycleOverlapWorld_walk]
    split <;>
      simp [readFb, leValue, cpu_physical_memory_read, cycleOverlapWorld, FbLayout.cntOff, fb16]

/-- C17, amended: the transmit loop stops exactly when `curr` reaches 0.  When
it returns, `curr == 0`; with `curr == 0` it returns at once; on a finite chain
of `n` non-overlapping descriptors, each with `cnt` no larger than its payload
array, it needs exactly `n` iterations (with fewer the guard is still true,
with `n` it returns); and on a chain whose links never reach 0 and whose
descriptors are pairwise equal or disjoint (a circular chain, such as a
descriptor linked to itself), each with `cnt` no larger than its payload array,
the guard `curr != 0` is still true after every number of iterations. -/
theorem transmit_loop_termination (L : FbLayout) :
    (∀ fuel w w', eth194_tx_loop L fuel w = .ok w' → w'.s.curr = 0) ∧
    (∀ fuel w, w.s.curr = 0 → eth194_tx_loop L fuel w = .ok w) ∧
    (∀ w l, IsChain L w.mem w.s.curr l → NonOverlapping L l → ∀ fuel,
      (fuel < l.length → eth194_tx_loop L fuel w = .error Fault.outOfFuel) ∧
      (l.length ≤ fuel → ∃ w', eth194_tx_loop L fuel w = .ok w' ∧ w'.s.curr = 0)) ∧
    (∀ w, (∀ k, nphyWalk L w.mem w.s.curr k ≠ 0) →
      (∀ k, (readFb L w.mem (nphyWalk L w.mem w.s.curr k)).cnt ≤ L.dCap) →
      (∀ i j, nphyWalk L w.mem w.s.curr i = nphyWalk L w.mem w.s.curr j ∨
        nphyWalk L w.mem w.s.curr i + L.sizeof ≤ nphyWalk L w.mem w.s.curr j ∨
        nphyWalk L w.mem w.s.curr j + L.sizeof ≤ nphyWalk L w.mem w.s.curr i) →
      ∀ fuel, eth194_tx_loop L fuel w = .error Fault.outOfFuel) := by
  refine ⟨fun fuel w w' h => (eth194_tx_loop_regs L fuel w w' h).1, ?_, ?_, ?_⟩
  · intro fuel w h
    cases fuel <;> simp [eth194_tx_loop, h]
  · intro w l hch hno fuel
    constructor
    · exact eth194_tx_loop_chain_short L l w fuel hch hno
    · intro hf
      obtain ⟨w', hok, hc, -⟩ := eth194_tx_loop_chain L l w fuel hch hno hf
      exact ⟨w', hok, hc⟩
  · intro w hnz hcnt hsep fuel
    exact eth194_tx_loop_walk L w.mem w.s.curr hnz hcnt hsep fuel 0 w rfl (fun _ _ _ _ => rfl)

theorem selfLinkWorld_walk (k : Nat) :
    nphyWalk fb16 selfLinkWorld.mem selfLinkWorld.s.curr k = 0x3000 := by
  induction k with
  | zero => rfl
  | succ n ih =>
    simp only [nphyWalk, ih]
    simp [readFb, leValue, cpu_physical_memory_read, selfLinkWorld]

/-- C17, amended, at the chain `0x1000 → 0x2000 → 0` (no return within 0 or 1 iteration,
return with `curr == 0` within 2) and at the descriptor `0x3000` linked to
itself (no return within any number of iterations). -/
theorem transmit_loop_termination_witness :
    eth194_tx_loop fb16 0 chainWorld = .error Fault.outOfFuel ∧
    eth194_tx_loop fb16 1 chainWorld = .error Fault.outOfFuel ∧
    (∃ w', eth194_tx_loop fb16 2 chainWorld = .ok w' ∧ w'.s.curr = 0) ∧
    (readFb fb16 selfLinkWorld.mem 0x3000).nphy = 0x3000 ∧
    ∀ fuel, eth194_tx_loop fb16 fuel selfLinkWorld = .error Fault.outOfFuel := by
  have h := transmit_loop_termination fb16
  have hc := h.2.2.1 chainWorld [0x1000, 0x2000] chainWorld_isChain chainWorld_nonOverlapping
  refine ⟨(hc 0).1 (by decide), (hc 1).1 (by decide), (hc 2).2 (by decide), ?_, ?_⟩
  · simp [readFb, leValue, cpu_physical_memory_read, selfLinkWorld]
  · apply h.2.2.2 selfLinkWorld
    · intro k; rw [selfLinkWorld_walk]; decide
    · intro k; rw [selfLinkWorld_walk]
      simp [readFb, leValue, cpu_physical_memory_read, selfLinkWorld, fb16, FbLayout.cntOff]
    · intro i j; left; rw [selfLinkWorld_walk, selfLinkWorld_walk]

/-! ## Assembling the ring pointers byte by byte -/

theorem testBit_byte_high (b j : Nat) (hb : b < 256) (hj : 8 ≤ j) : b.testBit j = false :=
  Nat.testBit_lt_two_pow (lt_of_lt_of_le hb (by
    rw [show (256 : Nat) = 2 ^ 8 from rfl]
    exact Nat.pow_le_pow_right (by norm_num) hj))

/-- Bits of `(x & ~(0xff << 8k)) | (b << 8k)` as a 32-bit value, for a byte `b`. -/
theorem testBit_set_byte (x b k : Nat) (hb : b < 256) (hk : k < 4) (i : Nat) :
    (((x &&& bnot32 ((2 ^ 8 - 1) <<< (8 * k))) ||| (b <<< (8 * k)) % 2 ^ 32) % 2 ^ 32).testBit i
      = if 8 * k ≤ i ∧ i < 8 * k + 8 then b.testBit (i - 8 * k)
        else (decide (i < 32) && x.testBit i) := by
  simp only [Nat.testBit_mod_two_pow, Nat.testBit_or, Nat.testBit_and, testBit_bnot32,
    Nat.testBit_shiftLeft, Nat.testBit_two_pow_sub_one]
  by_cases h1 : 8 * k ≤ i
  · by_cases h2 : i < 8 * k + 8
    · have h32 : i < 32 := by omega
      have h3 : i - 8 * k < 8 := by omega
      simp [h1, h2, h32, h3]
    · have h3 : ¬ (i - 8 * k < 8) := by omega
      have hb' : b.testBit (i - 8 * k) = false := testBit_byte_high b _ hb (by omega)
      by_cases h32 : i < 32 <;> simp [h1, h2, h32, h3, hb']
  · have h2 : ¬ (i ≥ 8 * k) := by omega
    by_cases h32 : i < 32 <;> simp [h1, h32, h2]

theorem testBit_setByte32 (x b k : Nat) (hb : b < 256) (hk : k < 4) :
    (∀ j r, j < 4 → r < 8 →
      (setByte32 x k b).testBit (8 * j + r)
        = if j = k then b.testBit r else x.testBit (8 * j + r)) ∧
    (∀ i, 32 ≤ i → (setByte32 x k b).testBit i = false) := by
  unfold setByte32
  constructor
  · intro j r hj hr
    rw [testBit_set_byte x b k hb hk]
    by_cases h : j = k
    · subst h
      rw [if_pos ⟨by omega, by omega⟩, if_pos rfl]
      congr 1; omega
    · rw [if_neg (by omega), if_neg h]
      have : 8 * j + r < 32 := by omega
      simp [this]
  · intro i hi
    rw [testBit_set_byte x b k hb hk, if_neg (by omega)]
    have : ¬ i < 32 := by omega
    simp [this]

/-- With the ring-pointer page selected, a write to the register of byte `k` of
`curr` replaces that byte and leaves `cmd` and `curw` alone. -/
theorem write_curr_byte (L : FbLayout) (fuel : Nat) (w : World) (k v : Nat)
    (hpage : w.s.cmd >>> 6 = 3) (hk : k < 4) :
    ∃ w', eth194_ioport_write L fuel w (currReg k) v = .ok w' ∧ w'.s.cmd = w.s.cmd ∧
      w'.s.curw = w.s.curw ∧ w'.s.curr = setByte32 w.s.curr k v := by
  have hoff : (currReg k &&& 0xf) ||| ((w.s.cmd >>> 6) <<< 4) = 0x30 + currReg k ∧
      currReg k &&& 0xf ≠ 0 := by
    rw [hpage]; interval_cases k <;> decide
  refine ⟨_, ioport_write_reg L fuel w _ v _ hoff.2 hoff.1, ?_⟩
  interval_cases k <;>
    simp [eth194_ioport_write_switch, currReg, setByte32, bnot32, EN0_IMR, EN0_TCNTLO,
      EN0_TCNTHI, EN0_RCNTLO, EN0_RCNTHI, EN0_RXCR, EN0_ISR, EN1_PHYS, EN1_MULT, EN3_CURR0,
      EN3_CURR1, EN3_CURR2, EN3_CURR3]

/-- With the ring-pointer page selected, a write to the register of byte `k` of
`curw` replaces that byte and leaves `cmd` and `curr` alone. -/
theorem write_curw_byte (L : FbLayout) (fuel : Nat) (w : World) (k v : Nat)
    (hpage : w.s.cmd >>> 6 = 3) (hk : k < 4) :
    ∃ w', eth194_ioport_write L fuel w (curwReg k) v = .ok w' ∧ w'.s.cmd = w.s.cmd ∧
      w'.s.curr = w.s.curr ∧ w'.s.curw = setByte32 w.s.curw k v := by
  have hoff : (curwReg k &&& 0xf) ||| ((w.s.cmd >>> 6) <<< 4) = 0x30 + curwReg k ∧
      curwReg k &&& 0xf ≠ 0 := by
    rw [hpage]; interval_cases k <;> decide
  refine ⟨_, ioport_write_reg L fuel w _ v _ hoff.2 hoff.1, ?_⟩
  interval_cases k <;>
    simp [eth194_ioport_write_switch, curwReg, setByte32, bnot32, EN0_IMR, EN0_TCNTLO,
      EN0_TCNTHI, EN0_RCNTLO, EN0_RCNTHI, EN0_RXCR, EN0_ISR, EN1_PHYS, EN1_MULT, EN3_CURR0,
      EN3_CURR1, EN3_CURR2, EN3_CURR3, EN3_CURW0, EN3_CURW1, EN3_CURW2, EN3_CURW3]

/-- A 32-bit value is the combination of its four bytes. -/
theorem eq_of_bytes (x b0 b1 b2 b3 : Nat) (hb0 : b0 < 256) (hb1 : b1 < 256) (hb2 : b2 < 256)
    (hb3 : b3 < 256)
    (h0 : ∀ r, r < 8 → x.testBit r = b0.testBit r)
    (h1 : ∀ r, r < 8 → x.testBit (8 + r) = b1.testBit r)
    (h2 : ∀ r, r < 8 → x.testBit (16 + r) = b2.testBit r)
    (h3 : ∀ r, r < 8 → x.testBit (24 + r) = b3.testBit r)
    (hhigh : ∀ i, 32 ≤ i → x.testBit i = false) :
    x = b0 ||| (b1 <<< 8) ||| (b2 <<< 16) ||| (b3 <<< 24) := by
  apply Nat.eq_of_testBit_eq
  intro i
  simp only [Nat.testBit_or, Nat.testBit_shiftLeft]
  by_cases c0 : i < 8
  · have e1 : ¬ (i ≥ 8) := by omega
    have e2 : ¬ (i ≥ 16) := by omega
    have e3 : ¬ (i ≥ 24) := by omega
    simp [h0 i c0, e1, e2, e3]
  · by_cases c1 : i < 16
    · obtain ⟨r, rfl⟩ : ∃ r, i = 8 + r := ⟨i - 8, by omega⟩
      have e2 : ¬ (8 + r ≥ 16) := by omega
      have e3 : ¬ (8 + r ≥ 24) := by omega
      have k0 : b0.testBit (8 + r) = false := testBit_byte_high b0 _ hb0 (by omega)
      simp [h1 r (by omega), e2, e3, k0]
    · by_cases c2 : i < 24
      · obtain ⟨r, rfl⟩ : ∃ r, i = 16 + r := ⟨i - 16, by omega⟩
        have e3 : ¬ (16 + r ≥ 24) := by omega
        have k0 : b0.testBit (16 + r) = false := testBit_byte_high b0 _ hb0 (by omega)
        have k1 : b1.testBit (16 + r - 8) = false := testBit_byte_high b1 _ hb1 (by omega)
        simp [h2 r (by omega), e3, k0, k1]
      · have k0 : b0.testBit i = false := testBit_byte_high b0 _ hb0 (by omega)
        have k1 : b1.testBit (i - 8) = false := testBit_byte_high b1 _ hb1 (by omega)
        have k2 : b2.testBit (i - 16) = false := testBit_byte_high b2 _ hb2 (by omega)
        by_cases c3 : i < 32
        · obtain ⟨r, rfl⟩ : ∃ r, i = 24 + r := ⟨i - 24, by omega⟩
          have e : 24 + r ≥ 24 := by omega
          simp [h3 r (by omega), k0, k1, k2]
        · have k3 : b3.testBit (i - 24) = false := testBit_byte_high b3 _ hb3 (by omega)
          simp [hhigh i (by omega), k0, k1, k2, k3]

/-- Writes of the bytes `b k` to the registers `reg k` of one ring pointer, in
any number and order: every byte written holds its `b k`, the others are as
before. -/
theorem write_all_bytes (L : FbLayout) (fuel : Nat) (reg : Nat → Nat) (get other : World → Nat)
    (hinj : ∀ j k, j < 4 → k < 4 → reg j = reg k → j = k)
    (hstep : ∀ w k v, w.s.cmd >>> 6 = 3 → k < 4 →
      ∃ w', eth194_ioport_write L fuel w (reg k) v = .ok w' ∧ w'.s.cmd = w.s.cmd ∧
        other w' = other w ∧ get w' = setByte32 (get w) k v)
    (b : Nat → Nat) (hb : ∀ k, k < 4 → b k < 256) :
    ∀ (p : List (Nat × Nat)) (w : World), w.s.cmd >>> 6 = 3 →
      (∀ q ∈ p, ∃ k, k < 4 ∧ q = (reg k, b k)) →
      ∃ w', eth194_write_all L fuel w p = .ok w' ∧ w'.s.cmd = w.s.cmd ∧ other w' = other w ∧
        (∀ j r, j < 4 → r < 8 →
          (get w').testBit (8 * j + r)
            = if (reg j, b j) ∈ p then (b j).testBit r else (get w).testBit (8 * j + r)) ∧
        (∀ i, 32 ≤ i → (get w).testBit i = false → (get w').testBit i = false) ∧
        (p ≠ [] → ∀ i, 32 ≤ i → (get w').testBit i = false) := by
  intro p
  induction p with
  | nil =>
    intro w _ _
    exact ⟨w, rfl, rfl, rfl, fun _ _ _ _ => by simp, fun _ _ h => h, fun h => absurd rfl h⟩
  | cons q p ih =>
    intro w hpage hq
    obtain ⟨k, hk, rfl⟩ := hq q (List.mem_cons_self _ _)
    obtain ⟨w1, hw1, hcmd1, hoth1, hget1⟩ := hstep w k (b k) hpage hk
    obtain ⟨hbits1, hhigh1⟩ := testBit_setByte32 (get w) (b k) k (hb k hk) hk
    obtain ⟨w', hw', hcmd, hoth, hbits, hkeep, -⟩ :=
      ih w1 (by rw [hcmd1]; exact hpage) (fun q' hq' => hq q' (List.mem_cons_of_mem _ hq'))
    have hhigh : ∀ i, 32 ≤ i → (get w').testBit i = false := by
      intro i hi
      apply hkeep i hi
      rw [hget1]; exact hhigh1 i hi
    refine ⟨w', ?_, by rw [hcmd, hcmd1], by rw [hoth, hoth1], ?_, fun i hi _ => hhigh i hi,
      fun _ => hhigh⟩
    · simp only [eth194_write_all, hw1]
      exact hw'
    · intro j r hj hr
      rw [hbits j r hj hr, hget1, hbits1 j r hj hr]
      by_cases hmem : (reg j, b j) ∈ p
      · rw [if_pos hmem, if_pos (List.mem_cons_of_mem _ hmem)]
      · rw [if_neg hmem]
        by_cases hjk : j = k
        · subst hjk
          rw [if_pos rfl, if_pos (List.mem_cons_self _ _)]
        · rw [if_neg hjk, if_neg]
          intro hc
          rcases List.mem_cons.mp hc with heq | hc
          · exact hjk (hinj j k hj hk (congrArg Prod.fst heq))
          · exact hmem hc

theorem assembled_of_perm (L : FbLayout) (fuel : Nat) (reg : Nat → Nat)
    (get other : World → Nat)
    (hinj : ∀ j k, j < 4 → k < 4 → reg j = reg k → j = k)
    (hstep : ∀ w k v, w.s.cmd >>> 6 = 3 → k < 4 →
      ∃ w', eth194_ioport_write L fuel w (reg k) v = .ok w' ∧ w'.s.cmd = w.s.cmd ∧
        other w' = other w ∧ get w' = setByte32 (get w) k v)
    (b0 b1 b2 b3 : Nat) (hb0 : b0 < 256) (hb1 : b1 < 256) (hb2 : b2 < 256) (hb3 : b3 < 256)
    (w : World) (hpage : w.s.cmd >>> 6 = 3) (p : List (Nat × Nat))
    (hp : p.Perm [(reg 0, b0), (reg 1, b1), (reg 2, b2), (reg 3, b3)]) :
    ∃ w', eth194_write_all L fuel w p = .ok w' ∧
      get w' = b0 ||| (b1 <<< 8) ||| (b2 <<< 16) ||| (b3 <<< 24) ∧ other w' = other w := by
  let b : Nat → Nat := fun k => if k = 0 then b0 else if k = 1 then b1 else if k = 2 then b2 else b3
  have hb : ∀ k, k < 4 → b k < 256 := by
    intro k hk
    interval_cases k <;> simp [b] <;> assumption
  have hall : ∀ q ∈ p, ∃ k, k < 4 ∧ q = (reg k, b k) := by
    intro q hq
    have := hp.mem_iff.mp hq
    simp only [List.mem_cons, List.mem_singleton, List.not_mem_nil, or_false] at this
    rcases this with h | h | h | h
    · exact ⟨0, by omega, h⟩
    · exact ⟨1, by omega, h⟩
    · exact ⟨2, by omega, h⟩
    · exact ⟨3, by omega, h⟩
  have hmem : ∀ k, k < 4 → (reg k, b k) ∈ p := by
    intro k hk
    apply hp.mem_iff.mpr
    interval_cases k <;> simp [b]
  have hne : p ≠ [] := by
    intro h
    have := hmem 0 (by omega)
    rw [h] at this
    exact List.not_mem_nil _ this
  obtain ⟨w', hw', -, hoth, hbits, -, hhigh⟩ :=
    write_all_bytes L fuel reg get other hinj hstep b hb p w hpage hall
  refine ⟨w', hw', ?_, hoth⟩
  apply eq_of_bytes _ b0 b1 b2 b3 hb0 hb1 hb2 hb3
  · intro r hr
    have := hbits 0 r (by omega) hr
    rw [if_pos (hmem 0 (by omega))] at this
    simpa [b] using this
  · intro r hr
    have := hbits 1 r (by omega) hr
    rw [if_pos (hmem 1 (by omega))] at this
    simpa [b] using this
  · intro r hr
    have := hbits 2 r (by omega) hr
    rw [if_pos (hmem 2 (by omega))] at this
    simpa [b] using this
  · intro r hr
    have := hbits 3 r (by omega) hr
    rw [if_pos (hmem 3 (by omega))] at this
    simpa [b] using this
  · exact hhigh hne

/-- C16: with the ring-pointer page selected (`cmd >> 6 == 3`), for all bytes
`b0..b3` and any prior `curr`, writing `b0, b1, b2, b3` to the four CURR byte
registers (offsets 0x2, 0x4, 0x7, 0x8) in any order yields
`curr == b0 | b1<<8 | b2<<16 | b3<<24` and leaves `curw` unchanged; likewise
writing the four CURW byte registers (offsets 0xA..0xD) in any order yields
`curw == b0 | b1<<8 | b2<<16 | b3<<24` and leaves `curr` unchanged. -/
theorem ring_pointers_assembled (L : FbLayout) (fuel : Nat) (w : World) (b0 b1 b2 b3 : Nat)
    (hpage : w.s.cmd >>> 6 = 3)
    (hb0 : b0 < 256) (hb1 : b1 < 256) (hb2 : b2 < 256) (hb3 : b3 < 256)
    (p : List (Nat × Nat)) :
    (p.Perm [(0x2, b0), (0x4, b1), (0x7, b2), (0x8, b3)] →
      ∃ w', eth194_write_all L fuel w p = .ok w' ∧
        w'.s.curr = b0 ||| (b1 <<< 8) ||| (b2 <<< 16) ||| (b3 <<< 24) ∧
        w'.s.curw = w.s.curw) ∧
    (p.Perm [(0xA, b0), (0xB, b1), (0xC, b2), (0xD, b3)] →
      ∃ w', eth194_write_all L fuel w p = .ok w' ∧
        w'.s.curw = b0 ||| (b1 <<< 8) ||| (b2 <<< 16) ||| (b3 <<< 24) ∧
        w'.s.curr = w.s.curr) := by
  constructor
  · intro hp
    exact assembled_of_perm L fuel currReg (fun w => w.s.curr) (fun w => w.s.curw)
      (by intro j k hj hk; interval_cases j <;> interval_cases k <;> decide)
      (fun w k v hpg hk => by
        obtain ⟨w', h1, h2, h3, h4⟩ := write_curr_byte L fuel w k v hpg hk
        exact ⟨w', h1, h2, h3, h4⟩)
      b0 b1 b2 b3 hb0 hb1 hb2 hb3 w hpage p hp
  · intro hp
    exact assembled_of_perm L fuel curwReg (fun w => w.s.curw) (fun w => w.s.curr)
      (by intro j k hj hk; interval_cases j <;> interval_cases k <;> decide)
      (fun w k v hpg hk => by
        obtain ⟨w', h1, h2, h3, h4⟩ := write_curw_byte L fuel w k v hpg hk
        exact ⟨w', h1, h2, h3, h4⟩)
      b0 b1 b2 b3 hb0 hb1 hb2 hb3 w hpage p hp

/-- C16 at `curr = curw = 0xAABBCCDD` and the bytes `0x78, 0x56, 0x34, 0x12`:
the CURR registers written high byte first, the CURW registers in the order
2, 0, 3, 1. -/
theorem ring_pointers_assembled_witness :
    page3World.s.cmd >>> 6 = 3 ∧ 0x78 < 256 ∧ 0x56 < 256 ∧ 0x34 < 256 ∧ 0x12 < 256 ∧
    ([(0x8, 0x12), (0x7, 0x34), (0x4, 0x56), (0x2, 0x78)] : List (Nat × Nat)).Perm
      [(0x2, 0x78), (0x4, 0x56), (0x7, 0x34), (0x8, 0x12)] ∧
    ([(0xC, 0x34), (0xA, 0x78), (0xD, 0x12), (0xB, 0x56)] : List (Nat × Nat)).Perm
      [(0xA, 0x78), (0xB, 0x56), (0xC, 0x34), (0xD, 0x12)] ∧
    (∃ w', eth194_write_all fb16 0 page3World
        [(0x8, 0x12), (0x7, 0x34), (0x4, 0x56), (0x2, 0x78)] = .ok w' ∧
      w'.s.curr = 0x12345678 ∧ w'.s.curw = page3World.s.curw) ∧
    (∃ w', eth194_write_all fb16 0 page3World
        [(0xC, 0x34), (0xA, 0x78), (0xD, 0x12), (0xB, 0x56)] = .ok w' ∧
      w'.s.curw = 0x12345678 ∧ w'.s.curr = page3World.s.curr) :=
  ⟨by decide, by decide, by decide, by decide, by decide, by decide, by decide,
   (ring_pointers_assembled fb16 0 page3World 0x78 0x56 0x34 0x12 (by decide) (by decide)
     (by decide) (by decide) (by decide)
     [(0x8, 0x12), (0x7, 0x34), (0x4, 0x56), (0x2, 0x78)]).1 (by decide),
   (ring_pointers_assembled fb16 0 page3World 0x78 0x56 0x34 0x12 (by decide) (by decide)
     (by decide) (by decide) (by decide)
     [(0xC, 0x34), (0xA, 0x78), (0xD, 0x12), (0xB, 0x56)]).2 (by decide)⟩

/-! ## A command write with the stop bit set -/

/-- With the stop bit set, the command write stores `cmd` and does nothing else. -/
theorem cmd_write_stop_eq (L : FbLayout) (fuel : Nat) (w : World) (addr v : Nat)
    (haddr : addr &&& 0xf = E8390_CMD) (hstop : v &&& E8390_STOP ≠ 0) :
    eth194_ioport_write L fuel w addr v = .ok { w with s := { w.s with cmd := v % 256 } } := by
  unfold eth194_ioport_write
  simp only [haddr, if_true, if_neg hstop]

/-- The stop bit of a value survives its conversion to `uint32_t`. -/
theorem stop_bit_mod (v : Nat) : (v % 2 ^ 32) &&& E8390_STOP = v &&& E8390_STOP := by
  apply Nat.eq_of_testBit_eq
  intro i
  simp only [Nat.testBit_and, Nat.testBit_mod_two_pow, E8390_STOP]
  by_cases h : i < 32
  · simp [h]
  · have h1 : Nat.testBit 1 i = false :=
      Nat.testBit_lt_two_pow (lt_of_lt_of_le (by norm_num) (Nat.pow_le_pow_right (by norm_num) (not_lt.mp h)))
    simp [h1]

/-- C21: for every state and every value `v` with the stop bit (0x01) set, a
write of `v` to CMD returns, whatever the fuel, with `cmd` set to the low 8
bits of `v` and nothing else changed: every other register (`isr`, `curr`,
`curw`, `tsr` among them), guest memory, the interrupt line and the list of
frames sent are those of the state before.  The same holds for the mapped write
`eth194_write`.  No condition is put on the transmit-trigger bit of `v` or on
`curr`. -/
theorem cmd_write_with_stop_changes_only_cmd (L : FbLayout) (fuel : Nat) (w : World)
    (addr v : Nat) (haddr : addr &&& 0xf = E8390_CMD) (hstop : v &&& E8390_STOP ≠ 0) :
    eth194_ioport_write L fuel w addr v = .ok { w with s := { w.s with cmd := v % 256 } } ∧
    eth194_write L fuel w addr v = .ok { w with s := { w.s with cmd := v % 256 } } := by
  refine ⟨cmd_write_stop_eq L fuel w addr v haddr hstop, ?_⟩
  unfold eth194_write
  have h1 : (addr % 2 ^ 32) &&& 0xf = E8390_CMD := by
    rw [and_fifteen] at haddr ⊢
    rw [← haddr]
    norm_num
  have h2 : (v % 2 ^ 32) &&& E8390_STOP ≠ 0 := by rw [stop_bit_mod]; exact hstop
  have h3 : v % 2 ^ 32 % 256 = v % 256 := by norm_num
  rw [cmd_write_stop_eq L fuel w _ _ h1 h2, h3]

/-- C21 at a device with the reset status pending, `rcnt = 0` and one
descriptor queued at `curr = 0x1000`, for the value `0x1D` (stop, transmit
trigger, remote read and remote write) and no fuel at all. -/
theorem cmd_write_with_stop_changes_only_cmd_witness :
    (0 &&& 0xf = E8390_CMD ∧ 0x1D &&& E8390_STOP ≠ 0) ∧
    (0x1D &&& E8390_TRANS ≠ 0 ∧ haltedWorld.s.curr ≠ 0) ∧
    (eth194_ioport_write fb16 0 haltedWorld 0 0x1D
        = .ok { haltedWorld with s := { haltedWorld.s with cmd := 0x1D % 256 } } ∧
      eth194_write fb16 0 haltedWorld 0 0x1D
        = .ok { haltedWorld with s := { haltedWorld.s with cmd := 0x1D % 256 } }) :=
  ⟨⟨by decide, by decide⟩, ⟨by decide, by decide⟩,
   cmd_write_with_stop_changes_only_cmd fb16 0 haltedWorld 0 0x1D (by decide) (by decide)⟩

/-! ## Reading the ring-pointer registers -/

/-- The `EN3_CURR0 .. EN3_CURR3` cases of the read switch. -/
theorem ioport_read_curr (s : ETH194State) (k : Nat) (hpage : s.cmd >>> 6 = 3) (hk : k < 4) :
    eth194_ioport_read s (currReg k) = s.curr &&& bnot32 (0xFF <<< (8 * k)) := by
  have hoff : (currReg k &&& 0xf) ||| ((s.cmd >>> 6) <<< 4) = 0x30 + currReg k ∧
      currReg k &&& 0xf ≠ 0 := by
    rw [hpage]; interval_cases k <;> decide
  unfold eth194_ioport_read
  simp only [E8390_CMD, if_neg hoff.2, hoff.1]
  interval_cases k <;>
    simp [currReg, bnot32, EN0_TSR, EN0_ISR, EN1_PHYS, EN1_MULT, EN0_RSR,
      EN0_RTL8029ID0, EN0_RTL8029ID1, EN3_CONFIG0, EN3_CONFIG2, EN3_CONFIG3, EN3_CURR0,
      EN3_CURR1, EN3_CURR2, EN3_CURR3]

/-- The `EN3_CURW0 .. EN3_CURW3` cases of the read switch. -/
theorem ioport_read_curw (s : ETH194State) (k : Nat) (hpage : s.cmd >>> 6 = 3) (hk : k < 4) :
    eth194_ioport_read s (curwReg k) = s.curw &&& bnot32 (0xFF <<< (8 * k)) := by
  have hoff : (curwReg k &&& 0xf) ||| ((s.cmd >>> 6) <<< 4) = 0x30 + curwReg k ∧
      curwReg k &&& 0xf ≠ 0 := by
    rw [hpage]; interval_cases k <;> decide
  unfold eth194_ioport_read
  simp only [E8390_CMD, if_neg hoff.2, hoff.1]
  interval_cases k <;>
    simp [curwReg, bnot32, EN0_TSR, EN0_ISR, EN1_PHYS, EN1_MULT, EN0_RSR,
      EN0_RTL8029ID0, EN0_RTL8029ID1, EN3_CONFIG0, EN3_CONFIG2, EN3_CONFIG3, EN3_CURR0,
      EN3_CURR1, EN3_CURR2, EN3_CURR3, EN3_CURW0, EN3_CURW1, EN3_CURW2, EN3_CURW3]

/-- Bits of the mask `~(0xFF << 8k)`. -/
theorem testBit_lane_mask (k i : Nat) :
    (bnot32 (0xFF <<< (8 * k))).testBit i
      = (decide (i < 32) ^^ (decide (8 * k ≤ i) && decide (i - 8 * k < 8))) := by
  rw [testBit_bnot32, show (0xFF : Nat) = 2 ^ 8 - 1 from rfl, Nat.testBit_shiftLeft,
    Nat.testBit_two_pow_sub_one]

/-- Masking byte `k` away hides a byte stored there. -/
theorem and_mask_setByte32 (x b k : Nat) (hb : b < 256) (hk : k < 4) :
    setByte32 x k b &&& bnot32 (0xFF <<< (8 * k)) = x &&& bnot32 (0xFF <<< (8 * k)) := by
  apply Nat.eq_of_testBit_eq
  intro i
  unfold setByte32
  rw [Nat.testBit_and, Nat.testBit_and, testBit_set_byte x b k hb hk, testBit_lane_mask]
  by_cases h1 : 8 * k ≤ i
  · by_cases h2 : i < 8 * k + 8
    · have h3 : i - 8 * k < 8 := by omega
      have h32 : i < 32 := by omega
      simp [h1, h2, h3, h32]
    · have h3 : ¬ (i - 8 * k < 8) := by omega
      by_cases h32 : i < 32 <;> simp [h1, h2, h3, h32]
  · by_cases h32 : i < 32 <;> simp [h1, h32]

/-- Byte `k` of a value masked with `~(0xFF << 8k)` is 0. -/
theorem masked_lane_zero (x k : Nat) (hk : k < 4) :
    ((x &&& bnot32 (0xFF <<< (8 * k))) >>> (8 * k)) % 256 = 0 := by
  apply Nat.eq_of_testBit_eq
  intro i
  rw [show (256 : Nat) = 2 ^ 8 from rfl, Nat.testBit_mod_two_pow, Nat.testBit_shiftRight,
    Nat.testBit_and, testBit_lane_mask, Nat.zero_testBit]
  by_cases h : i < 8
  · have h1 : 8 * k + i < 32 := by omega
    have h2 : 8 * k + i - 8 * k < 8 := by omega
    simp [h, h1, h2]
  · simp [h]

/-- C22: with the ring-pointer page selected (`cmd >> 6 == 3`), a read of the
register of byte `k` of `curr` (`k = 0..3`, offsets 0x2, 0x4, 0x7, 0x8) returns
the whole of `curr` with byte `k` cleared, `curr & ~(0xFF << 8k)`, and a read of
the register of byte `k` of `curw` (offsets 0xA..0xD) returns
`curw & ~(0xFF << 8k)`.  The byte written to such a register is not what a read
gives back: after a write of any byte `b` the read returns what it returned
before the write, and byte `k` of that value is 0. -/
theorem ring_pointer_read_clears_byte (L : FbLayout) (fuel : Nat) (w : World) (k b : Nat)
    (hpage : w.s.cmd >>> 6 = 3) (hk : k < 4) (hb : b < 256) :
    (List.map currReg [0, 1, 2, 3] = [0x2, 0x4, 0x7, 0x8] ∧
      List.map curwReg [0, 1, 2, 3] = [0xA, 0xB, 0xC, 0xD]) ∧
    eth194_ioport_read w.s (currReg k) = w.s.curr &&& bnot32 (0xFF <<< (8 * k)) ∧
    eth194_ioport_read w.s (curwReg k) = w.s.curw &&& bnot32 (0xFF <<< (8 * k)) ∧
    (∃ w1, eth194_ioport_write L fuel w (currReg k) b = .ok w1 ∧
      eth194_ioport_read w1.s (currReg k) = eth194_ioport_read w.s (currReg k) ∧
      (eth194_ioport_read w1.s (currReg k) >>> (8 * k)) % 256 = 0) ∧
    (∃ w1, eth194_ioport_write L fuel w (curwReg k) b = .ok w1 ∧
      eth194_ioport_read w1.s (curwReg k) = eth194_ioport_read w.s (curwReg k) ∧
      (eth194_ioport_read w1.s (curwReg k) >>> (8 * k)) % 256 = 0) := by
  refine ⟨⟨by decide, by decide⟩, ioport_read_curr w.s k hpage hk,
    ioport_read_curw w.s k hpage hk, ?_, ?_⟩
  · obtain ⟨w1, h1, hc, -, h4⟩ := write_curr_byte L fuel w k b hpage hk
    have hp1 : w1.s.cmd >>> 6 = 3 := by rw [hc]; exact hpage
    refine ⟨w1, h1, ?_, ?_⟩
    · rw [ioport_read_curr w1.s k hp1 hk, ioport_read_curr w.s k hpage hk, h4]
      exact and_mask_setByte32 _ b k hb hk
    · rw [ioport_read_curr w1.s k hp1 hk]
      exact masked_lane_zero _ k hk
  · obtain ⟨w1, h1, hc, -, h4⟩ := write_curw_byte L fuel w k b hpage hk
    have hp1 : w1.s.cmd >>> 6 = 3 := by rw [hc]; exact hpage
    refine ⟨w1, h1, ?_, ?_⟩
    · rw [ioport_read_curw w1.s k hp1 hk, ioport_read_curw w.s k hpage hk, h4]
      exact and_mask_setByte32 _ b k hb hk
    · rw [ioport_read_curw w1.s k hp1 hk]
      exact masked_lane_zero _ k hk

/-- C22 at `curr = curw = 0xAABBCCDD`, byte 1 (offsets 0x4 and 0xB) and the
written byte `0x5A`: both reads return `0xAABB00DD`, before the write and after
it. -/
theorem ring_pointer_read_clears_byte_witness :
    (page3World.s.cmd >>> 6 = 3 ∧ 1 < 4 ∧ 0x5A < 256) ∧
    (currReg 1 = 0x4 ∧ curwReg 1 = 0xB ∧
      page3World.s.curr &&& bnot32 (0xFF <<< (8 * 1)) = 0xAABB00DD ∧
      page3World.s.curw &&& bnot32 (0xFF <<< (8 * 1)) = 0xAABB00DD) ∧
    ((List.map currReg [0, 1, 2, 3] = [0x2, 0x4, 0x7, 0x8] ∧
      List.map curwReg [0, 1, 2, 3] = [0xA, 0xB, 0xC, 0xD]) ∧
    eth194_ioport_read page3World.s (currReg 1)
      = page3World.s.curr &&& bnot32 (0xFF <<< (8 * 1)) ∧
    eth194_ioport_read page3World.s (curwReg 1)
      = page3World.s.curw &&& bnot32 (0xFF <<< (8 * 1)) ∧
    (∃ w1, eth194_ioport_write fb16 0 page3World (currReg 1) 0x5A = .ok w1 ∧
      eth194_ioport_read w1.s (currReg 1) = eth194_ioport_read page3World.s (currReg 1) ∧
      (eth194_ioport_read w1.s (currReg 1) >>> (8 * 1)) % 256 = 0) ∧
    (∃ w1, eth194_ioport_write fb16 0 page3World (curwReg 1) 0x5A = .ok w1 ∧
      eth194_ioport_read w1.s (curwReg 1) = eth194_ioport_read page3World.s (curwReg 1) ∧
      (eth194_ioport_read w1.s (curwReg 1) >>> (8 * 1)) % 256 = 0)) :=
  ⟨⟨by decide, by decide, by decide⟩, ⟨by decide, by decide, by decide, by decide⟩,
   ring_pointer_read_clears_byte fb16 0 page3World 1 0x5A (by decide) (by decide) (by decide)⟩

end ETH194
